import Mathlib

/-!
# Verification of the Heirloom encrypted journal store

A shallow embedding of the repository's storage and security layer:

* `src/services/cryptoService.ts` (hex encoding, key derivation, AES-GCM
  encrypt/decrypt of JSON payloads and binary buffers),
* `src/services/dbService.ts` (the IndexedDB-backed entry/audio/image store,
  the per-record encryption, placeholders, delete, and the two bulk
  migrations),
* the `useSecurity` hook (salt/validator persistence, unlock, lock,
  passcode configuration).

Platform primitives that are not repository code (WebCrypto AES-GCM and
PBKDF2, `JSON.stringify`/`JSON.parse`, `TextEncoder`/`TextDecoder`,
`Array.prototype.sort`, IndexedDB object stores) are modelled explicitly;
each such definition carries a doc comment naming what it models.
-/

/-! ## Bytes and hex strings

The crypto service moves between `Uint8Array`s and lowercase hex strings:
`Array.from(arr).map(b => b.toString(16).padStart(2, '0')).join('')` one way
and `s.match(/.{1,2}/g)!.map(b => parseInt(b, 16))` back.  Bytes are
modelled as `Nat`s; `ByteOK` says every entry is an actual byte. -/

def ByteOK (bs : List Nat) : Prop := ∀ b ∈ bs, b < 256

instance : DecidablePred ByteOK := fun bs =>
  inferInstanceAs (Decidable (∀ b ∈ bs, b < 256))

/-- The lowercase hex digit for `n < 16`, as produced by `toString(16)`. -/
def hexDigitChar (n : Nat) : Char :=
  if n < 10 then Char.ofNat (48 + n) else Char.ofNat (87 + n)

/-- The two hex characters of a byte, as `b.toString(16).padStart(2, '0')`. -/
def byteToHexChars (b : Nat) : List Char :=
  [hexDigitChar (b / 16), hexDigitChar (b % 16)]

/-- Source `Array.from(bytes).map(b => b.toString(16).padStart(2,'0')).join('')`. -/
def bytesToHex (bs : List Nat) : String :=
  String.mk (bs.flatMap byteToHexChars)

/-- Value of `parseInt` on one hex character; non-hex characters go to `0`, matching
the `Uint8Array` coercion of `NaN` (never reached on honest input). -/
def hexCharVal (c : Char) : Nat :=
  if 48 ≤ c.toNat ∧ c.toNat ≤ 57 then c.toNat - 48
  else if 97 ≤ c.toNat ∧ c.toNat ≤ 102 then c.toNat - 87
  else if 65 ≤ c.toNat ∧ c.toNat ≤ 70 then c.toNat - 55
  else 0

/-- The `.match(/.{1,2}/g)` chunking followed by `parseInt(chunk, 16)`. -/
def hexPairsToBytes : List Char → List Nat
  | [] => []
  | [c] => [hexCharVal c]
  | c1 :: c2 :: rest => (16 * hexCharVal c1 + hexCharVal c2) :: hexPairsToBytes rest

/-- Source `s.match(/.{1,2}/g)!.map(b => parseInt(b, 16))` on a hex string. -/
def hexToBytes (s : String) : List Nat := hexPairsToBytes s.data

theorem hexCharVal_hexDigitChar {n : Nat} (h : n < 16) :
    hexCharVal (hexDigitChar n) = n := by
  interval_cases n <;> decide

theorem hexToBytes_bytesToHex {bs : List Nat} (h : ByteOK bs) :
    hexToBytes (bytesToHex bs) = bs := by
  induction bs with
  | nil => rfl
  | cons b t ih =>
    have hb : b < 256 := h b (List.mem_cons_self b t)
    have ht : ByteOK t := fun x hx => h x (List.mem_cons_of_mem b hx)
    have hdiv : b / 16 < 16 := Nat.div_lt_of_lt_mul hb
    have hmod : b % 16 < 16 := Nat.mod_lt b (by omega)
    show hexPairsToBytes (byteToHexChars b ++ t.flatMap byteToHexChars) = b :: t
    rw [byteToHexChars]
    show (16 * hexCharVal (hexDigitChar (b / 16)) +
        hexCharVal (hexDigitChar (b % 16))) :: hexPairsToBytes (t.flatMap byteToHexChars)
      = b :: t
    rw [hexCharVal_hexDigitChar hdiv, hexCharVal_hexDigitChar hmod]
    have := Nat.div_add_mod b 16
    have : 16 * (b / 16) + b % 16 = b := this
    rw [this]
    exact congrArg (b :: ·) (ih ht)

theorem bytesToHex_ne_empty {bs : List Nat} (h : bs ≠ []) :
    bytesToHex bs ≠ "" := by
  cases bs with
  | nil => exact absurd rfl h
  | cons b t =>
    intro hcontra
    have : (String.mk ((b :: t).flatMap byteToHexChars)).data = ("" : String).data :=
      congrArg String.data hcontra
    simp [byteToHexChars] at this

/-! ## A self-delimiting byte codec

Used below to model the platform serialization primitives
(`JSON.stringify` + `TextEncoder` and their inverses) and the ideal AES-GCM
ciphertext format.  All produced bytes are `< 256` so that hex encoding
round-trips. -/

/-- Unary encoding of a natural number (self-delimiting, bytes `{0,1}`). -/
def encNat (n : Nat) : List Nat := List.replicate n 1 ++ [0]

/-- Inverse of `encNat`; returns the value and the remaining bytes. -/
def decNat : List Nat → Option (Nat × List Nat)
  | 0 :: rest => some (0, rest)
  | 1 :: rest =>
    match decNat rest with
    | some (n, r) => some (n + 1, r)
    | none => none
  | _ => none

theorem decNat_encNat (n : Nat) (rest : List Nat) :
    decNat (encNat n ++ rest) = some (n, rest) := by
  induction n with
  | zero => rfl
  | succ k ih =>
    show decNat (1 :: (List.replicate k 1 ++ [0]) ++ rest) = some (k + 1, rest)
    show decNat (1 :: ((List.replicate k 1 ++ [0]) ++ rest)) = some (k + 1, rest)
    unfold decNat
    rw [show (List.replicate k 1 ++ [0]) ++ rest = encNat k ++ rest from rfl, ih]

theorem byteOK_encNat (n : Nat) : ByteOK (encNat n) := by
  intro b hb
  unfold encNat at hb
  rcases List.mem_append.mp hb with h | h
  · have := List.eq_of_mem_replicate h
    omega
  · simp at h
    omega

/-- Three-byte big-endian encoding of a unicode code point (`< 2^24`). -/
def encChar (c : Char) : List Nat :=
  [c.toNat / 65536, c.toNat / 256 % 256, c.toNat % 256]

def decChar : List Nat → Option (Char × List Nat)
  | b2 :: b1 :: b0 :: rest => some (Char.ofNat (b2 * 65536 + b1 * 256 + b0), rest)
  | _ => none

theorem char_toNat_lt (c : Char) : c.toNat < 1114112 := by
  rcases c.valid with h | h
  · exact Nat.lt_trans h (by norm_num)
  · exact h.2

theorem decChar_encChar (c : Char) (rest : List Nat) :
    decChar (encChar c ++ rest) = some (c, rest) := by
  show some (Char.ofNat (c.toNat / 65536 * 65536 + c.toNat / 256 % 256 * 256 + c.toNat % 256), rest)
    = some (c, rest)
  have hval : c.toNat / 65536 * 65536 + c.toNat / 256 % 256 * 256 + c.toNat % 256 = c.toNat := by
    omega
  rw [hval, Char.ofNat_toNat]

theorem byteOK_encChar (c : Char) : ByteOK (encChar c) := by
  have := char_toNat_lt c
  intro b hb
  unfold encChar at hb
  simp at hb
  rcases hb with h | h | h <;> omega

/-- Length-prefixed encoding of a string's characters. -/
def encStr (s : String) : List Nat :=
  encNat s.data.length ++ s.data.flatMap encChar

def decChars : Nat → List Nat → Option (List Char × List Nat)
  | 0, bs => some ([], bs)
  | n + 1, bs =>
    match decChar bs with
    | some (c, bs) =>
      match decChars n bs with
      | some (cs, bs) => some (c :: cs, bs)
      | none => none
    | none => none

def decStr (bs : List Nat) : Option (String × List Nat) :=
  match decNat bs with
  | some (n, bs) =>
    match decChars n bs with
    | some (cs, bs) => some (String.mk cs, bs)
    | none => none
  | none => none

theorem decChars_encChars (cs : List Char) (rest : List Nat) :
    decChars cs.length (cs.flatMap encChar ++ rest) = some (cs, rest) := by
  induction cs with
  | nil => rfl
  | cons c t ih =>
    show decChars (t.length + 1) (encChar c ++ (t.flatMap encChar ++ rest)) = some (c :: t, rest)
    unfold decChars
    rw [decChar_encChar c (t.flatMap encChar ++ rest)]
    show (match decChars t.length (t.flatMap encChar ++ rest) with
      | some (cs, bs) => some (c :: cs, bs)
      | none => none) = some (c :: t, rest)
    rw [ih]

theorem decStr_encStr (s : String) (rest : List Nat) :
    decStr (encStr s ++ rest) = some (s, rest) := by
  unfold decStr encStr
  rw [List.append_assoc, decNat_encNat]
  show (match decChars s.data.length (s.data.flatMap encChar ++ rest) with
    | some (cs, bs) => some (String.mk cs, bs)
    | none => none) = some (s, rest)
  rw [decChars_encChars]

theorem byteOK_encStr (s : String) : ByteOK (encStr s) := by
  intro b hb
  unfold encStr at hb
  rcases List.mem_append.mp hb with h | h
  · exact byteOK_encNat _ b h
  · rcases List.mem_flatMap.mp h with ⟨c, _, hc⟩
    exact byteOK_encChar c b hc

/-- Sign-and-magnitude integer encoding. -/
def encInt (i : Int) : List Nat :=
  if i < 0 then 1 :: encNat i.natAbs else 0 :: encNat i.natAbs

def decInt : List Nat → Option (Int × List Nat)
  | 0 :: bs =>
    match decNat bs with
    | some (n, bs) => some ((n : Int), bs)
    | none => none
  | 1 :: bs =>
    match decNat bs with
    | some (n, bs) => some (-(n : Int), bs)
    | none => none
  | _ => none

theorem decInt_encInt (i : Int) (rest : List Nat) :
    decInt (encInt i ++ rest) = some (i, rest) := by
  unfold encInt
  by_cases h : i < 0
  · rw [if_pos h]
    show (match decNat (encNat i.natAbs ++ rest) with
      | some (n, bs) => some (-(n : Int), bs)
      | none => none) = some (i, rest)
    rw [decNat_encNat]
    have hi : -(i.natAbs : Int) = i := by omega
    show some (-(i.natAbs : Int), rest) = some (i, rest)
    rw [hi]
  · rw [if_neg h]
    show (match decNat (encNat i.natAbs ++ rest) with
      | some (n, bs) => some ((n : Int), bs)
      | none => none) = some (i, rest)
    rw [decNat_encNat]
    have hi : (i.natAbs : Int) = i := by omega
    show some ((i.natAbs : Int), rest) = some (i, rest)
    rw [hi]

theorem byteOK_encInt (i : Int) : ByteOK (encInt i) := by
  intro b hb
  unfold encInt at hb
  split at hb <;>
  · rcases List.mem_cons.mp hb with h | h
    · omega
    · exact byteOK_encNat _ b h

/-! ## JSON values

`encryptData`/`decryptData` take and return arbitrary JSON-serializable
values (`any` in the source).  `JVal` is the JSON value type; numbers are
modelled as integers (the app only serializes integer timestamps and
coordinates).  `JArr`/`JObj` are the spines of arrays and of objects
(ordered field lists, as `JSON.stringify` emits them). -/

mutual

inductive JVal : Type where
  | jnull : JVal
  | jbool : Bool → JVal
  | jnum : Int → JVal
  | jstr : String → JVal
  | jarr : JArr → JVal
  | jobj : JObj → JVal

inductive JArr : Type where
  | anil : JArr
  | acons : JVal → JArr → JArr

inductive JObj : Type where
  | onil : JObj
  | ocons : String → JVal → JObj → JObj

end

mutual

/-- Node count of a JSON value (used as decoding fuel). -/
def jsize : JVal → Nat
  | .jnull => 1
  | .jbool _ => 1
  | .jnum _ => 1
  | .jstr _ => 1
  | .jarr xs => 1 + jsizeA xs
  | .jobj fs => 1 + jsizeO fs

def jsizeA : JArr → Nat
  | .anil => 1
  | .acons v tl => 1 + jsize v + jsizeA tl

def jsizeO : JObj → Nat
  | .onil => 1
  | .ocons _ v tl => 1 + jsize v + jsizeO tl

end

mutual

/-- Tagged byte encoding of a JSON value. -/
def encVal : JVal → List Nat
  | .jnull => [0]
  | .jbool b => [1, if b then 1 else 0]
  | .jnum i => 2 :: encInt i
  | .jstr s => 3 :: encStr s
  | .jarr xs => 4 :: encArr xs
  | .jobj fs => 5 :: encObj fs

def encArr : JArr → List Nat
  | .anil => [0]
  | .acons v tl => 1 :: (encVal v ++ encArr tl)

def encObj : JObj → List Nat
  | .onil => [0]
  | .ocons k v tl => 1 :: (encStr k ++ encVal v ++ encObj tl)

end

mutual

/-- Fuel-indexed decoder for `encVal`. -/
def decVal : Nat → List Nat → Option (JVal × List Nat)
  | 0, _ => none
  | _ + 1, 0 :: bs => some (.jnull, bs)
  | _ + 1, 1 :: 0 :: bs => some (.jbool false, bs)
  | _ + 1, 1 :: 1 :: bs => some (.jbool true, bs)
  | _ + 1, 2 :: bs =>
    match decInt bs with
    | some (i, bs) => some (.jnum i, bs)
    | none => none
  | _ + 1, 3 :: bs =>
    match decStr bs with
    | some (s, bs) => some (.jstr s, bs)
    | none => none
  | fuel + 1, 4 :: bs =>
    match decArr fuel bs with
    | some (xs, bs) => some (.jarr xs, bs)
    | none => none
  | fuel + 1, 5 :: bs =>
    match decObj fuel bs with
    | some (fs, bs) => some (.jobj fs, bs)
    | none => none
  | _ + 1, _ => none

def decArr : Nat → List Nat → Option (JArr × List Nat)
  | 0, _ => none
  | _ + 1, 0 :: bs => some (.anil, bs)
  | fuel + 1, 1 :: bs =>
    match decVal fuel bs with
    | some (v, bs) =>
      match decArr fuel bs with
      | some (tl, bs) => some (.acons v tl, bs)
      | none => none
    | none => none
  | _ + 1, _ => none

def decObj : Nat → List Nat → Option (JObj × List Nat)
  | 0, _ => none
  | _ + 1, 0 :: bs => some (.onil, bs)
  | fuel + 1, 1 :: bs =>
    match decStr bs with
    | some (k, bs) =>
      match decVal fuel bs with
      | some (v, bs) =>
        match decObj fuel bs with
        | some (tl, bs) => some (.ocons k v tl, bs)
        | none => none
      | none => none
    | none => none
  | _ + 1, _ => none

end

theorem jsize_pos (v : JVal) : 1 ≤ jsize v := by
  cases v <;> simp [jsize]

theorem jsizeA_pos (xs : JArr) : 1 ≤ jsizeA xs := by
  cases xs <;> simp [jsizeA] <;> omega

theorem jsizeO_pos (fs : JObj) : 1 ≤ jsizeO fs := by
  cases fs <;> simp [jsizeO] <;> omega

theorem codec_roundtrip (fuel : Nat) :
    (∀ (v : JVal) (rest : List Nat), jsize v ≤ fuel →
      decVal fuel (encVal v ++ rest) = some (v, rest)) ∧
    (∀ (xs : JArr) (rest : List Nat), jsizeA xs ≤ fuel →
      decArr fuel (encArr xs ++ rest) = some (xs, rest)) ∧
    (∀ (fs : JObj) (rest : List Nat), jsizeO fs ≤ fuel →
      decObj fuel (encObj fs ++ rest) = some (fs, rest)) := by
  induction fuel with
  | zero =>
    refine ⟨fun v _ h => ?_, fun xs _ h => ?_, fun fs _ h => ?_⟩
    · exact absurd h (by have := jsize_pos v; omega)
    · exact absurd h (by have := jsizeA_pos xs; omega)
    · exact absurd h (by have := jsizeO_pos fs; omega)
  | succ fuel ih =>
    obtain ⟨ihv, iha, iho⟩ := ih
    refine ⟨?_, ?_, ?_⟩
    · intro v rest hsz
      cases v with
      | jnull => rfl
      | jbool b => cases b <;> rfl
      | jnum i =>
        show decVal (fuel + 1) (2 :: (encInt i ++ rest)) = some (.jnum i, rest)
        unfold decVal
        rw [decInt_encInt]
      | jstr s =>
        show decVal (fuel + 1) (3 :: (encStr s ++ rest)) = some (.jstr s, rest)
        unfold decVal
        rw [decStr_encStr]
      | jarr xs =>
        have hxs : jsizeA xs ≤ fuel := by simp [jsize] at hsz; omega
        show decVal (fuel + 1) (4 :: (encArr xs ++ rest)) = some (.jarr xs, rest)
        unfold decVal
        rw [iha xs rest hxs]
      | jobj fs =>
        have hfs : jsizeO fs ≤ fuel := by simp [jsize] at hsz; omega
        show decVal (fuel + 1) (5 :: (encObj fs ++ rest)) = some (.jobj fs, rest)
        unfold decVal
        rw [iho fs rest hfs]
    · intro xs rest hsz
      cases xs with
      | anil => rfl
      | acons v tl =>
        have hv : jsize v ≤ fuel := by
          have := jsizeA_pos tl; simp [jsizeA] at hsz; omega
        have htl : jsizeA tl ≤ fuel := by
          have := jsize_pos v; simp [jsizeA] at hsz; omega
        show decArr (fuel + 1) (1 :: ((encVal v ++ encArr tl) ++ rest)) = some (.acons v tl, rest)
        rw [List.append_assoc]
        unfold decArr
        rw [ihv v (encArr tl ++ rest) hv]
        show (match decArr fuel (encArr tl ++ rest) with
          | some (tl, bs) => some (JArr.acons v tl, bs)
          | none => none) = some (.acons v tl, rest)
        rw [iha tl rest htl]
    · intro fs rest hsz
      cases fs with
      | onil => rfl
      | ocons k v tl =>
        have hv : jsize v ≤ fuel := by
          have := jsizeO_pos tl; simp [jsizeO] at hsz; omega
        have htl : jsizeO tl ≤ fuel := by
          have := jsize_pos v; simp [jsizeO] at hsz; omega
        show decObj (fuel + 1) (1 :: ((encStr k ++ encVal v ++ encObj tl) ++ rest))
          = some (.ocons k v tl, rest)
        rw [List.append_assoc, List.append_assoc]
        unfold decObj
        rw [decStr_encStr]
        show (match decVal fuel (encVal v ++ (encObj tl ++ rest)) with
          | some (v, bs) =>
            match decObj fuel bs with
            | some (tl, bs) => some (JObj.ocons k v tl, bs)
            | none => none
          | none => none) = some (.ocons k v tl, rest)
        rw [ihv v (encObj tl ++ rest) hv]
        show (match decObj fuel (encObj tl ++ rest) with
          | some (tl, bs) => some (JObj.ocons k v tl, bs)
          | none => none) = some (.ocons k v tl, rest)
        rw [iho tl rest htl]

/-- Modelled from the spec: `new TextEncoder().encode(JSON.stringify(data))` —
an injective, executable byte serialization of a JSON value, standing in for
the JSON text encoding (the node count is prefixed so parsing needs no
backtracking). -/
def serialize (v : JVal) : List Nat := encNat (jsize v) ++ encVal v

/-- Modelled from the spec: `JSON.parse(new TextDecoder().decode(bytes))`.
Returns `none` (i.e. `JSON.parse` throws) on any bytes `serialize` cannot
produce. -/
def deserialize (bs : List Nat) : Option JVal :=
  match decNat bs with
  | some (n, bs) =>
    match decVal n bs with
    | some (v, []) => some v
    | _ => none
  | none => none

theorem deserialize_serialize (v : JVal) : deserialize (serialize v) = some v := by
  unfold deserialize serialize
  rw [decNat_encNat]
  have h := (codec_roundtrip (jsize v)).1 v [] (le_refl _)
  rw [List.append_nil] at h
  show (match decVal (jsize v) (encVal v) with
    | some (v, []) => some v
    | _ => none) = some v
  rw [h]

theorem byteOK_encVal_all (n : Nat) :
    (∀ v : JVal, jsize v ≤ n → ByteOK (encVal v)) ∧
    (∀ xs : JArr, jsizeA xs ≤ n → ByteOK (encArr xs)) ∧
    (∀ fs : JObj, jsizeO fs ≤ n → ByteOK (encObj fs)) := by
  induction n with
  | zero =>
    refine ⟨fun v h => ?_, fun xs h => ?_, fun fs h => ?_⟩
    · exact absurd h (by have := jsize_pos v; omega)
    · exact absurd h (by have := jsizeA_pos xs; omega)
    · exact absurd h (by have := jsizeO_pos fs; omega)
  | succ n ih =>
    obtain ⟨ihv, iha, iho⟩ := ih
    refine ⟨?_, ?_, ?_⟩
    · intro v hsz b hb
      cases v with
      | jnull => simp [encVal] at hb; omega
      | jbool bb => cases bb <;> simp [encVal] at hb <;> omega
      | jnum i =>
        simp only [encVal] at hb
        rcases List.mem_cons.mp hb with h | h
        · omega
        · exact byteOK_encInt i b h
      | jstr s =>
        simp only [encVal] at hb
        rcases List.mem_cons.mp hb with h | h
        · omega
        · exact byteOK_encStr s b h
      | jarr xs =>
        have hxs : jsizeA xs ≤ n := by simp [jsize] at hsz; omega
        simp only [encVal] at hb
        rcases List.mem_cons.mp hb with h | h
        · omega
        · exact iha xs hxs b h
      | jobj fs =>
        have hfs : jsizeO fs ≤ n := by simp [jsize] at hsz; omega
        simp only [encVal] at hb
        rcases List.mem_cons.mp hb with h | h
        · omega
        · exact iho fs hfs b h
    · intro xs hsz b hb
      cases xs with
      | anil => simp [encArr] at hb; omega
      | acons v tl =>
        have hv : jsize v ≤ n := by
          have := jsizeA_pos tl; simp [jsizeA] at hsz; omega
        have htl : jsizeA tl ≤ n := by
          have := jsize_pos v; simp [jsizeA] at hsz; omega
        simp only [encArr] at hb
        rcases List.mem_cons.mp hb with h | h
        · omega
        · rcases List.mem_append.mp h with h | h
          · exact ihv v hv b h
          · exact iha tl htl b h
    · intro fs hsz b hb
      cases fs with
      | onil => simp [encObj] at hb; omega
      | ocons k v tl =>
        have hv : jsize v ≤ n := by
          have := jsizeO_pos tl; simp [jsizeO] at hsz; omega
        have htl : jsizeO tl ≤ n := by
          have := jsize_pos v; simp [jsizeO] at hsz; omega
        simp only [encObj] at hb
        rcases List.mem_cons.mp hb with h | h
        · omega
        · rcases List.mem_append.mp h with h | h
          · rcases List.mem_append.mp h with h | h
            · exact byteOK_encStr k b h
            · exact ihv v hv b h
          · exact iho tl htl b h

theorem byteOK_serialize (v : JVal) : ByteOK (serialize v) := by
  intro b hb
  unfold serialize at hb
  rcases List.mem_append.mp hb with h | h
  · exact byteOK_encNat _ b h
  · exact (byteOK_encVal_all (jsize v)).1 v (le_refl _) b h

/-! ## Ideal AES-GCM (the WebCrypto primitive)

Modelled from the spec: `window.crypto.subtle.encrypt/decrypt` with
`AES-GCM` is an authenticated encryption scheme.  It is modelled as an
*ideal* AEAD: the ciphertext is a self-delimiting byte encoding of
`(key, iv, plaintext)`, and decryption authenticates by checking that the
ciphertext parses and was produced under exactly the supplied key and iv —
any other input fails, which models the overwhelming-probability
authentication-tag rejection of real AES-GCM (the spec's `DecryptionError`).
Keys (opaque `CryptoKey` handles) are modelled as `Nat`. -/

def aesGcmEncrypt (key : Nat) (iv : List Nat) (pt : List Nat) : List Nat :=
  2 :: (encNat key ++ encNat iv.length ++ iv ++ pt)

def aesGcmDecrypt (key : Nat) (iv : List Nat) (ct : List Nat) : Option (List Nat) :=
  match ct with
  | 2 :: rest =>
    match decNat rest with
    | some (k, rest) =>
      match decNat rest with
      | some (n, rest) =>
        if k = key ∧ n = iv.length ∧ rest.take n = iv then some (rest.drop n) else none
      | none => none
    | none => none
  | _ => none

theorem aesGcmDecrypt_aesGcmEncrypt (key : Nat) (iv pt : List Nat) :
    aesGcmDecrypt key iv (aesGcmEncrypt key iv pt) = some pt := by
  unfold aesGcmEncrypt aesGcmDecrypt
  rw [List.append_assoc, List.append_assoc]
  show (match decNat (encNat key ++ (encNat iv.length ++ (iv ++ pt))) with
    | some (k, rest) =>
      match decNat rest with
      | some (n, rest) =>
        if k = key ∧ n = iv.length ∧ rest.take n = iv then some (rest.drop n) else none
      | none => none
    | none => none) = some pt
  rw [decNat_encNat]
  show (match decNat (encNat iv.length ++ (iv ++ pt)) with
    | some (n, rest) =>
      if key = key ∧ n = iv.length ∧ rest.take n = iv then some (rest.drop n) else none
    | none => none) = some pt
  rw [decNat_encNat]
  show (if key = key ∧ iv.length = iv.length ∧ (iv ++ pt).take iv.length = iv
    then some ((iv ++ pt).drop iv.length) else none) = some pt
  rw [if_pos ⟨rfl, rfl, List.take_left iv pt⟩, List.drop_left]

theorem aesGcmDecrypt_wrong_key (key key' : Nat) (hne : key' ≠ key)
    (iv iv' pt : List Nat) :
    aesGcmDecrypt key' iv' (aesGcmEncrypt key iv pt) = none := by
  unfold aesGcmEncrypt aesGcmDecrypt
  rw [List.append_assoc, List.append_assoc]
  show (match decNat (encNat key ++ (encNat iv.length ++ (iv ++ pt))) with
    | some (k, rest) =>
      match decNat rest with
      | some (n, rest) =>
        if k = key' ∧ n = iv'.length ∧ rest.take n = iv' then some (rest.drop n) else none
      | none => none
    | none => none) = none
  rw [decNat_encNat]
  show (match decNat (encNat iv.length ++ (iv ++ pt)) with
    | some (n, rest) =>
      if key = key' ∧ n = iv'.length ∧ rest.take n = iv' then some (rest.drop n) else none
    | none => none) = none
  rw [decNat_encNat]
  exact if_neg (fun h => hne (h.1.symm))

theorem byteOK_aesGcmEncrypt (key : Nat) {iv pt : List Nat}
    (hiv : ByteOK iv) (hpt : ByteOK pt) :
    ByteOK (aesGcmEncrypt key iv pt) := by
  intro b hb
  unfold aesGcmEncrypt at hb
  rcases List.mem_cons.mp hb with h | h
  · omega
  · rcases List.mem_append.mp h with h | h
    · rcases List.mem_append.mp h with h | h
      · rcases List.mem_append.mp h with h | h
        · exact byteOK_encNat _ b h
        · exact byteOK_encNat _ b h
      · exact hiv b h
    · exact hpt b h

/-! ## cryptoService.ts

`generateSalt` draws 16 random bytes (randomness is modelled by passing the
bytes explicitly); `deriveKey` applies PBKDF2 — modelled from the spec as an
unspecified deterministic function from (passcode, salt) to an opaque key. -/

/-- Source `generateSalt()`: hex of 16 random bytes (the caller supplies the
entropy). -/
def generateSalt (entropy : List Nat) : String := bytesToHex entropy

/-- Modelled from the spec: `deriveKey(passcode, salt)` — PBKDF2-SHA-256,
100000 iterations, yielding an AES-GCM key.  Deterministic in its two
arguments; the concrete mixing is irrelevant to every claim. -/
def deriveKey (passcode salt : String) : Nat :=
  (passcode ++ "§" ++ salt).data.foldl (fun a c => a * 1114112 + c.toNat + 1) 0

/-- Source `encryptData(key, data)`: serialize, AES-GCM encrypt under a fresh
12-byte iv (passed explicitly, modelling `crypto.getRandomValues`), and
hex-encode both iv and ciphertext.  Returns `(iv, content)`. -/
def encryptData (key : Nat) (data : JVal) (iv : List Nat) : String × String :=
  let encoded := serialize data
  let encrypted := aesGcmEncrypt key iv encoded
  (bytesToHex iv, bytesToHex encrypted)

/-- Source `decryptData(key, ivHex, encryptedHex)`: hex-decode, AES-GCM decrypt,
JSON-parse.  `none` models the caught failure re-thrown as
`Error("Failed to decrypt data. Key may be incorrect.")` — the spec's
`DecryptionError`. -/
def decryptData (key : Nat) (ivHex : String) (encryptedHex : String) : Option JVal :=
  match aesGcmDecrypt key (hexToBytes ivHex) (hexToBytes encryptedHex) with
  | some bytes => deserialize bytes
  | none => none

/-- Source `encryptBuffer(key, buffer)`: AES-GCM over raw bytes; only the iv is
hex-encoded, the ciphertext stays binary.  Returns `(iv, content)`. -/
def encryptBuffer (key : Nat) (buffer : List Nat) (iv : List Nat) : String × List Nat :=
  (bytesToHex iv, aesGcmEncrypt key iv buffer)

/-- Source `decryptBuffer(key, ivHex, buffer)`: hex-decode the iv and AES-GCM
decrypt; a `none` is the rejected promise (authentication failure). -/
def decryptBuffer (key : Nat) (ivHex : String) (buffer : List Nat) : Option (List Nat) :=
  aesGcmDecrypt key (hexToBytes ivHex) buffer

/-- A well-formed iv as produced by `crypto.getRandomValues(new Uint8Array(12))`. -/
def IvOK (iv : List Nat) : Prop := iv.length = 12 ∧ ByteOK iv

instance : DecidablePred IvOK := fun iv =>
  inferInstanceAs (Decidable (iv.length = 12 ∧ ByteOK iv))

theorem decryptData_encryptData (key : Nat) (v : JVal) {iv : List Nat} (hiv : IvOK iv) :
    decryptData key (encryptData key v iv).1 (encryptData key v iv).2 = some v := by
  unfold decryptData encryptData
  rw [hexToBytes_bytesToHex hiv.2,
    hexToBytes_bytesToHex (byteOK_aesGcmEncrypt key hiv.2 (byteOK_serialize v)),
    aesGcmDecrypt_aesGcmEncrypt]
  exact deserialize_serialize v

theorem decryptData_encryptData_wrong_key (k1 k2 : Nat) (hne : k2 ≠ k1)
    (v : JVal) {iv : List Nat} (hiv : IvOK iv) :
    decryptData k2 (encryptData k1 v iv).1 (encryptData k1 v iv).2 = none := by
  unfold decryptData encryptData
  rw [hexToBytes_bytesToHex hiv.2,
    hexToBytes_bytesToHex (byteOK_aesGcmEncrypt k1 hiv.2 (byteOK_serialize v)),
    aesGcmDecrypt_wrong_key k1 k2 hne]

theorem decryptBuffer_encryptBuffer (key : Nat) (buffer : List Nat)
    {iv : List Nat} (hiv : IvOK iv) :
    decryptBuffer key (encryptBuffer key buffer iv).1 (encryptBuffer key buffer iv).2
      = some buffer := by
  unfold decryptBuffer encryptBuffer
  rw [hexToBytes_bytesToHex hiv.2, aesGcmDecrypt_aesGcmEncrypt]

/-! ## Domain model (types.ts)

The `JournalEntry` interface, split as `saveEntry` splits it: the
non-blob fields (`EntryMeta`, the `...metaData` rest of the destructuring)
plus the three optional attachment blobs.  A browser `Blob` is its bytes
plus a MIME type string (possibly empty). -/

inductive InsightType : Type where
  | philosophy | memory | advice | observation | question
deriving DecidableEq, Repr

structure Insight where
  type : InsightType
  title : String
  content : String
deriving DecidableEq, Repr

structure LocationData where
  latitude : Int
  longitude : Int
  name : Option String
  address : Option String
deriving DecidableEq, Repr

inductive InputType : Type where
  | audio | text
deriving DecidableEq, Repr

structure Blob where
  data : List Nat
  type : String
deriving DecidableEq, Repr

structure EntryMeta where
  id : String
  createdAt : Int
  duration : Option Int
  transcription : String
  summary : Option String
  title : String
  mood : String
  tags : List String
  insights : List Insight
  location : Option LocationData
  isProcessing : Bool
  prompt : Option String
  inputType : Option InputType
deriving DecidableEq, Repr

structure JournalEntry extends EntryMeta where
  audioBlob : Option Blob
  snapshotBlob : Option Blob
  generatedImageBlob : Option Blob
deriving DecidableEq, Repr

/-- The object literal `sensitiveData` built in `saveEntry`: the nine
fields that are encrypted together. -/
structure SensitiveData where
  transcription : String
  summary : Option String
  title : String
  mood : String
  tags : List String
  insights : List Insight
  location : Option LocationData
  prompt : Option String
  inputType : Option InputType
deriving DecidableEq, Repr

def sensOfMeta (m : EntryMeta) : SensitiveData :=
  { transcription := m.transcription, summary := m.summary, title := m.title,
    mood := m.mood, tags := m.tags, insights := m.insights,
    location := m.location, prompt := m.prompt, inputType := m.inputType }

/-! ### JSON encoding of the sensitive payload

What `JSON.stringify` sees when `saveEntry` passes `sensitiveData`:
object fields in literal order, fields holding `undefined` omitted. -/

def insightTypeStr : InsightType → String
  | .philosophy => "philosophy"
  | .memory => "memory"
  | .advice => "advice"
  | .observation => "observation"
  | .question => "question"

def insightTypeOfStr : String → Option InsightType
  | "philosophy" => some .philosophy
  | "memory" => some .memory
  | "advice" => some .advice
  | "observation" => some .observation
  | "question" => some .question
  | _ => none

def inputTypeStr : InputType → String
  | .audio => "audio"
  | .text => "text"

def inputTypeOfStr : String → Option InputType
  | "audio" => some .audio
  | "text" => some .text
  | _ => none

/-- Append an optional string-valued field (dropped when `undefined`). -/
def oconsOptStr (k : String) (o : Option String) (tl : JObj) : JObj :=
  match o with
  | some s => .ocons k (.jstr s) tl
  | none => tl

def insightToJ (i : Insight) : JVal :=
  .jobj (.ocons "type" (.jstr (insightTypeStr i.type))
    (.ocons "title" (.jstr i.title)
      (.ocons "content" (.jstr i.content) .onil)))

def insightOfJ : JVal → Option Insight
  | .jobj (.ocons "type" (.jstr ty)
      (.ocons "title" (.jstr ti)
        (.ocons "content" (.jstr co) .onil))) =>
    match insightTypeOfStr ty with
    | some t => some ⟨t, ti, co⟩
    | none => none
  | _ => none

def strsToJArr : List String → JArr
  | [] => .anil
  | s :: t => .acons (.jstr s) (strsToJArr t)

def jArrToStrs : JArr → Option (List String)
  | .anil => some []
  | .acons (.jstr s) tl =>
    match jArrToStrs tl with
    | some t => some (s :: t)
    | none => none
  | _ => none

def insightsToJArr : List Insight → JArr
  | [] => .anil
  | i :: t => .acons (insightToJ i) (insightsToJArr t)

def jArrToInsights : JArr → Option (List Insight)
  | .anil => some []
  | .acons v tl =>
    match insightOfJ v with
    | some i =>
      match jArrToInsights tl with
      | some t => some (i :: t)
      | none => none
    | none => none

def locToJ (l : LocationData) : JVal :=
  .jobj (.ocons "latitude" (.jnum l.latitude)
    (.ocons "longitude" (.jnum l.longitude)
      (oconsOptStr "name" l.name (oconsOptStr "address" l.address .onil))))

def locOfJ : JVal → Option LocationData
  | .jobj (.ocons "latitude" (.jnum la) (.ocons "longitude" (.jnum lo) rest)) =>
    match rest with
    | .onil => some ⟨la, lo, none, none⟩
    | .ocons "name" (.jstr n) .onil => some ⟨la, lo, some n, none⟩
    | .ocons "name" (.jstr n) (.ocons "address" (.jstr a) .onil) => some ⟨la, lo, some n, some a⟩
    | .ocons "address" (.jstr a) .onil => some ⟨la, lo, none, some a⟩
    | _ => none
  | _ => none

/-- Append an optional object-valued field. -/
def oconsOpt (k : String) (o : Option JVal) (tl : JObj) : JObj :=
  match o with
  | some v => .ocons k v tl
  | none => tl

/-- The JSON value `JSON.stringify` serializes for `sensitiveData`. -/
def sensToJ (s : SensitiveData) : JVal :=
  .jobj (.ocons "transcription" (.jstr s.transcription)
    (oconsOptStr "summary" s.summary
      (.ocons "title" (.jstr s.title)
        (.ocons "mood" (.jstr s.mood)
          (.ocons "tags" (.jarr (strsToJArr s.tags))
            (.ocons "insights" (.jarr (insightsToJArr s.insights))
              (oconsOpt "location" (s.location.map locToJ)
                (oconsOptStr "prompt" s.prompt
                  (oconsOptStr "inputType" (s.inputType.map inputTypeStr) .onil)))))))))

/-! ### Reading the decrypted payload back

`getAllEntries` spreads `...decryptedData` into the typed entry.  Reading
is by field name; `none` marks a payload that does not have the shape the
`JournalEntry` interface declares (unreachable for records written by
`saveEntry` — in JS such a record would surface as an object with
ill-typed fields). -/

def jLookup (k : String) : JObj → Option JVal
  | .onil => none
  | .ocons k' v tl => if k' = k then some v else jLookup k tl

def getStrField (k : String) (fs : JObj) : Option String :=
  match jLookup k fs with
  | some (.jstr s) => some s
  | _ => none

def getOptStrField (k : String) (fs : JObj) : Option (Option String) :=
  match jLookup k fs with
  | none => some none
  | some (.jstr s) => some (some s)
  | some _ => none

def getStrsField (k : String) (fs : JObj) : Option (List String) :=
  match jLookup k fs with
  | some (.jarr xs) => jArrToStrs xs
  | _ => none

def getInsightsField (k : String) (fs : JObj) : Option (List Insight) :=
  match jLookup k fs with
  | some (.jarr xs) => jArrToInsights xs
  | _ => none

def getOptLocField (k : String) (fs : JObj) : Option (Option LocationData) :=
  match jLookup k fs with
  | none => some none
  | some v =>
    match locOfJ v with
    | some l => some (some l)
    | none => none

def getOptInputTypeField (k : String) (fs : JObj) : Option (Option InputType) :=
  match jLookup k fs with
  | none => some none
  | some (.jstr s) =>
    match inputTypeOfStr s with
    | some t => some (some t)
    | none => none
  | some _ => none

def sensOfJ : JVal → Option SensitiveData
  | .jobj fs => do
    let tr ← getStrField "transcription" fs
    let su ← getOptStrField "summary" fs
    let ti ← getStrField "title" fs
    let mo ← getStrField "mood" fs
    let ta ← getStrsField "tags" fs
    let ins ← getInsightsField "insights" fs
    let lo ← getOptLocField "location" fs
    let pr ← getOptStrField "prompt" fs
    let it ← getOptInputTypeField "inputType" fs
    pure ⟨tr, su, ti, mo, ta, ins, lo, pr, it⟩
  | _ => none

theorem jArrToStrs_strsToJArr (l : List String) :
    jArrToStrs (strsToJArr l) = some l := by
  induction l with
  | nil => rfl
  | cons s t ih =>
    show (match jArrToStrs (strsToJArr t) with
      | some t => some (s :: t)
      | none => none) = some (s :: t)
    rw [ih]

theorem insightTypeOfStr_insightTypeStr (t : InsightType) :
    insightTypeOfStr (insightTypeStr t) = some t := by
  cases t <;> rfl

theorem inputTypeOfStr_inputTypeStr (t : InputType) :
    inputTypeOfStr (inputTypeStr t) = some t := by
  cases t <;> rfl

theorem insightOfJ_insightToJ (i : Insight) :
    insightOfJ (insightToJ i) = some i := by
  obtain ⟨t, ti, co⟩ := i
  show (match insightTypeOfStr (insightTypeStr t) with
    | some t => some (⟨t, ti, co⟩ : Insight)
    | none => none) = some ⟨t, ti, co⟩
  rw [insightTypeOfStr_insightTypeStr]

theorem jArrToInsights_insightsToJArr (l : List Insight) :
    jArrToInsights (insightsToJArr l) = some l := by
  induction l with
  | nil => rfl
  | cons i t ih =>
    show (match insightOfJ (insightToJ i) with
      | some i' =>
        match jArrToInsights (insightsToJArr t) with
        | some t => some (i' :: t)
        | none => none
      | none => none) = some (i :: t)
    rw [insightOfJ_insightToJ, ih]

theorem locOfJ_locToJ (l : LocationData) : locOfJ (locToJ l) = some l := by
  obtain ⟨la, lo, n, a⟩ := l
  cases n <;> cases a <;> rfl

theorem sensOfJ_sensToJ (s : SensitiveData) : sensOfJ (sensToJ s) = some s := by
  obtain ⟨tr, su, ti, mo, ta, ins, lo, pr, it⟩ := s
  cases su <;> cases lo <;> cases pr <;> cases it <;>
    simp [sensToJ, sensOfJ, oconsOptStr, oconsOpt, jLookup, getStrField,
      getOptStrField, getStrsField, getInsightsField, getOptLocField,
      getOptInputTypeField, jArrToStrs_strsToJArr, jArrToInsights_insightsToJArr,
      locOfJ_locToJ, inputTypeOfStr_inputTypeStr]

/-! ## The store (dbService.ts)

IndexedDB is modelled as three association lists with unique keys
(IndexedDB object stores are key→value maps; `put` is upsert, `delete`
removes the key, `getAll` enumerates values).  Enumeration order is the
list order — only a tie among equal `createdAt` values could ever observe
the difference from IndexedDB's key order, and every theorem below compares
runs within this model. -/

/-- A row of the `entries` store: a plain record (all `JournalEntry`
fields minus blobs, as the `...metaData` rest) or the encrypted envelope
`{id, createdAt, isProcessing, isEncrypted: true, iv, cipherText}`. -/
inductive EntryRec : Type where
  | plain (m : EntryMeta)
  | enc (id : String) (createdAt : Int) (isProcessing : Bool) (iv : String) (cipherText : String)
deriving DecidableEq, Repr

def EntryRec.recId : EntryRec → String
  | .plain m => m.id
  | .enc id _ _ _ _ => id

/-- A row of the `audio_files` / `images` stores: a raw `Blob` or
`{iv, data, type, isEncrypted: true}`. -/
inductive BlobRec : Type where
  | plain (b : Blob)
  | enc (iv : String) (data : List Nat) (type : String)
deriving DecidableEq, Repr

structure DB where
  entries : List (String × EntryRec)
  audio : List (String × BlobRec)
  images : List (String × BlobRec)
deriving DecidableEq, Repr

def emptyDB : DB := ⟨[], [], []⟩

def keysA {α : Type} (l : List (String × α)) : List String := l.map Prod.fst

def lookupA {α : Type} (k : String) : List (String × α) → Option α
  | [] => none
  | (k', v) :: t => if k' = k then some v else lookupA k t

/-- IndexedDB `put`: replace the row in place, or append a new one. -/
def upsertA {α : Type} (k : String) (v : α) : List (String × α) → List (String × α)
  | [] => [(k, v)]
  | (k', v') :: t => if k' = k then (k, v) :: t else (k', v') :: upsertA k v t

/-- IndexedDB `delete`: remove the key. -/
def eraseA {α : Type} (k : String) (l : List (String × α)) : List (String × α) :=
  l.filter (fun p => decide (p.1 ≠ k))

theorem lookupA_upsertA_self {α : Type} (k : String) (v : α) (l : List (String × α)) :
    lookupA k (upsertA k v l) = some v := by
  induction l with
  | nil => simp [upsertA, lookupA]
  | cons p t ih =>
    obtain ⟨k', v'⟩ := p
    by_cases h : k' = k
    · simp [upsertA, h, lookupA]
    · simp [upsertA, h, lookupA, ih]

theorem lookupA_upsertA_ne {α : Type} {k k' : String} (hne : k' ≠ k)
    (v : α) (l : List (String × α)) :
    lookupA k' (upsertA k v l) = lookupA k' l := by
  have hne' : k ≠ k' := fun h => hne h.symm
  induction l with
  | nil => simp [upsertA, lookupA, hne']
  | cons p t ih =>
    obtain ⟨k0, v0⟩ := p
    by_cases h : k0 = k
    · subst h
      simp [upsertA, lookupA, hne']
    · simp [upsertA, h, lookupA, ih]

theorem lookupA_eraseA_self {α : Type} (k : String) (l : List (String × α)) :
    lookupA k (eraseA k l) = none := by
  induction l with
  | nil => rfl
  | cons p t ih =>
    obtain ⟨k', v'⟩ := p
    by_cases h : k' = k
    · simpa [eraseA, h] using ih
    · simpa [eraseA, h, lookupA] using ih

theorem lookupA_eraseA_ne {α : Type} {k k' : String} (hne : k' ≠ k)
    (l : List (String × α)) :
    lookupA k' (eraseA k l) = lookupA k' l := by
  have hne' : k ≠ k' := fun h => hne h.symm
  induction l with
  | nil => rfl
  | cons p t ih =>
    obtain ⟨k0, v0⟩ := p
    by_cases h : k0 = k
    · subst h
      simp [eraseA, lookupA, hne'] at ih ⊢
      exact ih
    · by_cases h0 : k0 = k'
      · subst h0
        simp [eraseA, List.filter_cons, hne, lookupA]
      · simp [eraseA, List.filter_cons, h, lookupA, h0] at ih ⊢
        exact ih

theorem eraseA_of_not_mem {α : Type} {k : String} :
    ∀ {l : List (String × α)}, lookupA k l = none → eraseA k l = l := by
  intro l
  induction l with
  | nil => exact fun _ => rfl
  | cons p t ih =>
    intro h
    obtain ⟨k0, v0⟩ := p
    by_cases hk : k0 = k
    · subst hk
      simp [lookupA] at h
    · have ht : lookupA k t = none := by simpa [lookupA, hk] using h
      have := ih ht
      simp [eraseA, List.filter_cons, hk] at this ⊢
      exact this

theorem keysA_upsertA_of_mem {α : Type} {k : String} (v : α) :
    ∀ {l : List (String × α)}, k ∈ keysA l → keysA (upsertA k v l) = keysA l := by
  intro l
  induction l with
  | nil => intro h; simp [keysA] at h
  | cons p t ih =>
    intro h
    obtain ⟨k0, v0⟩ := p
    by_cases hk : k0 = k
    · simp [upsertA, hk, keysA]
    · have hmem : k = k0 ∨ k ∈ keysA t := by
        have : k ∈ k0 :: keysA t := h
        exact List.mem_cons.mp this
      have ht : k ∈ keysA t := by
        rcases hmem with h0 | h0
        · exact absurd h0.symm hk
        · exact h0
      have := ih ht
      simp [upsertA, hk, keysA] at this ⊢
      exact this

theorem lookupA_isSome_of_mem {α : Type} {k : String} :
    ∀ {l : List (String × α)}, k ∈ keysA l → (lookupA k l).isSome := by
  intro l
  induction l with
  | nil => intro h; simp [keysA] at h
  | cons p t ih =>
    intro h
    obtain ⟨k0, v0⟩ := p
    by_cases hk : k0 = k
    · simp [lookupA, hk]
    · have hmem : k = k0 ∨ k ∈ keysA t := by
        have : k ∈ k0 :: keysA t := h
        exact List.mem_cons.mp this
      have ht : k ∈ keysA t := by
        rcases hmem with h0 | h0
        · exact absurd h0.symm hk
        · exact h0
      simpa [lookupA, hk] using ih ht

theorem mem_of_lookupA_isSome {α : Type} {k : String} :
    ∀ {l : List (String × α)}, (lookupA k l).isSome → k ∈ keysA l := by
  intro l
  induction l with
  | nil => intro h; simp [lookupA] at h
  | cons p t ih =>
    intro h
    obtain ⟨k0, v0⟩ := p
    by_cases hk : k0 = k
    · show k ∈ k0 :: keysA t
      exact hk ▸ List.mem_cons_self k0 (keysA t)
    · have := ih (by simpa [lookupA, hk] using h)
      show k ∈ k0 :: keysA t
      exact List.mem_cons_of_mem k0 this

theorem lookupA_map_value {α β : Type} (k : String) (f : String → α → β)
    (l : List (String × α)) :
    lookupA k (l.map (fun p => (p.1, f p.1 p.2))) = (lookupA k l).map (f k) := by
  induction l with
  | nil => rfl
  | cons p t ih =>
    obtain ⟨k0, v0⟩ := p
    by_cases hk : k0 = k
    · subst hk
      simp [lookupA]
    · simp [lookupA, hk, ih]

theorem keysA_map_value {α β : Type} (f : String → α → β) (l : List (String × α)) :
    keysA (l.map (fun p => (p.1, f p.1 p.2))) = keysA l := by
  induction l with
  | nil => rfl
  | cons p t ih =>
    simpa [keysA] using ih

/-- Association lists with the same keys in the same order, no duplicate
keys, and the same lookups are equal. -/
theorem assoc_ext {α : Type} :
    ∀ {l1 l2 : List (String × α)}, keysA l1 = keysA l2 → (keysA l1).Nodup →
      (∀ k, lookupA k l1 = lookupA k l2) → l1 = l2 := by
  intro l1
  induction l1 with
  | nil =>
    intro l2 hkeys _ _
    cases l2 with
    | nil => rfl
    | cons q t2 => simp [keysA] at hkeys
  | cons p t1 ih =>
    intro l2 hkeys hnd hlook
    obtain ⟨k, v⟩ := p
    cases l2 with
    | nil => simp [keysA] at hkeys
    | cons q t2 =>
      obtain ⟨k2, v2⟩ := q
      have hkc : (k :: keysA t1) = (k2 :: keysA t2) := hkeys
      have hk : k = k2 := (List.cons.injEq _ _ _ _ ▸ hkc).1
      subst hk
      have hndc : k ∉ keysA t1 ∧ (keysA t1).Nodup :=
        List.nodup_cons.mp (show (k :: keysA t1).Nodup from hnd)
      have hv : v = v2 := by
        have := hlook k
        simpa [lookupA] using this
      subst hv
      have hkeys' : keysA t1 = keysA t2 := (List.cons.injEq _ _ _ _ ▸ hkc).2
      refine congrArg ((k, v) :: ·) (ih hkeys' hndc.2 ?_)
      intro k'
      by_cases hk' : k' = k
      · subst hk'
        have h1 : lookupA k' t1 = none := by
          cases hcase : lookupA k' t1 with
          | none => rfl
          | some w =>
            exact absurd (mem_of_lookupA_isSome (by simp [hcase])) hndc.1
        have hnotmem2 : k' ∉ keysA t2 := hkeys' ▸ hndc.1
        have h2 : lookupA k' t2 = none := by
          cases hcase : lookupA k' t2 with
          | none => rfl
          | some w =>
            exact absurd (mem_of_lookupA_isSome (by simp [hcase])) hnotmem2
        rw [h1, h2]
      · have hne2 : k ≠ k' := fun h => hk' h.symm
        have := hlook k'
        simpa [lookupA, hne2] using this

/-! ## Sorting (`.sort((a, b) => b.createdAt - a.createdAt)`) -/

/-- The comparator: `a` may stay before `b` when `b.createdAt ≤ a.createdAt`
(descending, newest first). -/
def entryLe (a b : EntryMeta) : Prop := b.createdAt ≤ a.createdAt

instance : DecidableRel entryLe := fun a b =>
  inferInstanceAs (Decidable (b.createdAt ≤ a.createdAt))

instance : IsTotal EntryMeta entryLe :=
  ⟨fun a b => Int.le_total b.createdAt a.createdAt⟩

instance : IsTrans EntryMeta entryLe :=
  ⟨fun _ _ _ hab hbc => le_trans hbc hab⟩

/-- Modelled from the spec: `Array.prototype.sort` — a stable comparison
sort, realized as insertion sort. -/
def sortEntries (l : List EntryMeta) : List EntryMeta :=
  List.insertionSort entryLe l

/-! ## dbService.ts records and operations -/

/-- The placeholder built in the decryption `catch` branch:
`{...item, title: "Locked Memory", transcription, tags: [], insights: [],
mood: "Locked"}` — envelope fields from the stored record, every optional
field absent. -/
def lockedPlaceholder (id : String) (createdAt : Int) (isProcessing : Bool) : EntryMeta :=
  { id := id, createdAt := createdAt, duration := none,
    transcription := "Decryption failed. Please check your passcode.",
    summary := none, title := "Locked Memory", mood := "Locked",
    tags := [], insights := [], location := none,
    isProcessing := isProcessing, prompt := none, inputType := none }

/-- The placeholder returned when the record is tagged encrypted but no key
is installed (the source hard-codes `isProcessing: false` here). -/
def encryptedPlaceholder (id : String) (createdAt : Int) : EntryMeta :=
  { id := id, createdAt := createdAt, duration := none,
    transcription := "This entry is encrypted.",
    summary := none, title := "Encrypted Entry", mood := "Locked",
    tags := [], insights := [], location := none,
    isProcessing := false, prompt := none, inputType := none }

/-- The `{id, createdAt, isProcessing, ...decryptedData}` spread on a
well-shaped payload. -/
def metaOfSens (id : String) (createdAt : Int) (isProcessing : Bool)
    (s : SensitiveData) : EntryMeta :=
  { id := id, createdAt := createdAt, duration := none,
    transcription := s.transcription, summary := s.summary, title := s.title,
    mood := s.mood, tags := s.tags, insights := s.insights,
    location := s.location, isProcessing := isProcessing,
    prompt := s.prompt, inputType := s.inputType }

/-- Decryption succeeded but the JSON is not `SensitiveData`-shaped
(unreachable for records `saveEntry` wrote): JS would spread an object with
ill-typed fields behind the `as JournalEntry` cast; modelled as empty
fields. -/
def malformedPayload (id : String) (createdAt : Int) (isProcessing : Bool) : EntryMeta :=
  metaOfSens id createdAt isProcessing ⟨"", none, "", "", [], [], none, none, none⟩

/-- Per-record processing inside `getAllEntries`. -/
def decodeEntryRec (key : Option Nat) : EntryRec → EntryMeta
  | .plain m => m
  | .enc id createdAt isProcessing iv ct =>
    match key with
    | some k =>
      match decryptData k iv ct with
      | some j =>
        match sensOfJ j with
        | some s => metaOfSens id createdAt isProcessing s
        | none => malformedPayload id createdAt isProcessing
      | none => lockedPlaceholder id createdAt isProcessing
    | none => encryptedPlaceholder id createdAt

/-- Source `getAllEntries()`: read every record, decrypt-or-placeholder each
one (the concurrent `Promise.all` is a pure per-record map), sort descending
by `createdAt`. -/
def getAllEntries (key : Option Nat) (db : DB) : List EntryMeta :=
  sortEntries (db.entries.map (fun p => decodeEntryRec key p.2))

/-- The ivs one `saveEntry` call may draw (one per encrypted write). -/
structure IvPack where
  entryIv : List Nat
  audioIv : List Nat
  snapshotIv : List Nat
  artIv : List Nat

def IvPackOK (p : IvPack) : Prop :=
  IvOK p.entryIv ∧ IvOK p.audioIv ∧ IvOK p.snapshotIv ∧ IvOK p.artIv

/-- Placeholder pack for plaintext saves (no iv is drawn). -/
def noIvs : IvPack := ⟨[], [], [], []⟩

/-- Encrypt-or-passthrough for one attachment: the audio branch of
`saveEntry` and its `processImage` helper. -/
def storeBlob (key : Option Nat) (iv : List Nat) (b : Blob) : BlobRec :=
  match key with
  | some k =>
    let e := encryptBuffer k b.data iv
    .enc e.1 e.2 b.type
  | none => .plain b

/-- Source `saveEntry(entry)`: strip the blobs off, write the metadata
record (encrypting the nine sensitive fields when a key is active, keeping
`id`, `createdAt`, `isProcessing` clear), then write each present blob. -/
def saveEntry (key : Option Nat) (ivs : IvPack) (e : JournalEntry) (db : DB) : DB :=
  let m := e.toEntryMeta
  let dataToSave : EntryRec :=
    match key with
    | some k =>
      let enc := encryptData k (sensToJ (sensOfMeta m)) ivs.entryIv
      .enc m.id m.createdAt m.isProcessing enc.1 enc.2
    | none => .plain m
  let db1 : DB := { db with entries := upsertA m.id dataToSave db.entries }
  let db2 : DB :=
    match e.audioBlob with
    | some b => { db1 with audio := upsertA e.id (storeBlob key ivs.audioIv b) db1.audio }
    | none => db1
  let db3 : DB :=
    match e.snapshotBlob with
    | some b =>
      { db2 with images := upsertA (e.id ++ "_snapshot") (storeBlob key ivs.snapshotIv b) db2.images }
    | none => db2
  match e.generatedImageBlob with
  | some b =>
    { db3 with images := upsertA (e.id ++ "_art") (storeBlob key ivs.artIv b) db3.images }
  | none => db3

/-- Source `getEntryAudio(id)`: decrypt-or-passthrough; an empty stored iv
fails the `result.iv` truthiness test and yields absent. -/
def getEntryAudio (key : Option Nat) (id : String) (db : DB) : Option Blob :=
  match lookupA id db.audio with
  | none => none
  | some (.enc iv data ty) =>
    if iv = "" then none
    else
      match key with
      | some k =>
        match decryptBuffer k iv data with
        | some buf => some ⟨buf, if ty = "" then "audio/webm" else ty⟩
        | none => none
      | none => none
  | some (.plain b) => some b

inductive ImgKind : Type where
  | snapshot | art
deriving DecidableEq, Repr

def ImgKind.keySuffix : ImgKind → String
  | .snapshot => "_snapshot"
  | .art => "_art"

/-- Source `getEntryImage(id, type)`: row key is `id_snapshot` / `id_art`. -/
def getEntryImage (key : Option Nat) (id : String) (kind : ImgKind) (db : DB) : Option Blob :=
  match lookupA (id ++ kind.keySuffix) db.images with
  | none => none
  | some (.enc iv data ty) =>
    if iv = "" then none
    else
      match key with
      | some k =>
        match decryptBuffer k iv data with
        | some buf => some ⟨buf, if ty = "" then "image/jpeg" else ty⟩
        | none => none
      | none => none
  | some (.plain b) => some b

def IDENTITY_KEY : String := "user_identity_selfie"

def saveUserIdentityImage (key : Option Nat) (iv : List Nat) (b : Blob) (db : DB) : DB :=
  { db with images := upsertA IDENTITY_KEY (storeBlob key iv b) db.images }

/-- Source `getUserIdentityImage()` (its guard checks only
`result.isEncrypted && result.data`, not the iv). -/
def getUserIdentityImage (key : Option Nat) (db : DB) : Option Blob :=
  match lookupA IDENTITY_KEY db.images with
  | none => none
  | some (.enc iv data ty) =>
    match key with
    | some k =>
      match decryptBuffer k iv data with
      | some buf => some ⟨buf, if ty = "" then "image/jpeg" else ty⟩
      | none => none
    | none => none
  | some (.plain b) => some b

/-- Source `deleteEntry(id)`: one transaction deleting the metadata row,
the audio row, and both image rows. -/
def deleteEntry (id : String) (db : DB) : DB :=
  { entries := eraseA id db.entries,
    audio := eraseA id db.audio,
    images := eraseA (id ++ "_art") (eraseA (id ++ "_snapshot") db.images) }

def deleteEntryImage (id : String) (kind : ImgKind) (db : DB) : DB :=
  { db with images := eraseA (id ++ kind.keySuffix) db.images }

/-! ## Migrations -/

/-- One loop body of `migrateToEncrypted`: fetch the entry's blobs (the new
key is already installed at this point, but plain rows pass through
unchanged), assemble `fullEntry`, and re-save under the key. -/
def migrateEntryStep (key : Nat) (ivsFor : String → IvPack) (db : DB) (e : EntryMeta) : DB :=
  let audioBlob := getEntryAudio (some key) e.id db
  let snapshotBlob := getEntryImage (some key) e.id .snapshot db
  let artBlob := getEntryImage (some key) e.id .art db
  saveEntry (some key) (ivsFor e.id)
    { toEntryMeta := e, audioBlob := audioBlob, snapshotBlob := snapshotBlob,
      generatedImageBlob := artBlob } db

/-- Source `migrateToEncrypted(key)`: read everything with the key cleared,
re-save each entry with its blobs under the key, then the identity photo
(read keyless, re-saved under the key).  `ivsFor` supplies the fresh ivs the
re-encryption of each id draws; `identityIv` that of the identity photo. -/
def migrateToEncrypted (key : Nat) (ivsFor : String → IvPack) (identityIv : List Nat)
    (db : DB) : DB :=
  let allEntries := getAllEntries none db
  let db1 := allEntries.foldl (migrateEntryStep key ivsFor) db
  match getUserIdentityImage none db1 with
  | some b => saveUserIdentityImage (some key) identityIv b db1
  | none => db1

/-- One loop body of `migrateToPlain`: read (decrypting under `key`),
re-save in the clear. -/
def migratePlainStep (key : Nat) (db : DB) (e : EntryMeta) : DB :=
  let audioBlob := getEntryAudio (some key) e.id db
  let snapshotBlob := getEntryImage (some key) e.id .snapshot db
  let artBlob := getEntryImage (some key) e.id .art db
  saveEntry none noIvs
    { toEntryMeta := e, audioBlob := audioBlob, snapshotBlob := snapshotBlob,
      generatedImageBlob := artBlob } db

/-- Source `migrateToPlain(key)`: read everything under `key`, re-save each
entry and the identity photo in the clear. -/
def migrateToPlain (key : Nat) (db : DB) : DB :=
  let allEntries := getAllEntries (some key) db
  let db1 := allEntries.foldl (migratePlainStep key) db
  match getUserIdentityImage (some key) db1 with
  | some b => saveUserIdentityImage none [] b db1
  | none => db1

/-! ## The security hook (useSecurity)

State: `isLocked`, the persisted `vocal_journal_salt` /
`vocal_journal_validator` localStorage values, and the module-level db
encryption key (`KeyManager`). -/

/-- Modelled from the spec: `crypto.subtle.digest("SHA-256", ...)` rendered
as lowercase hex — a deterministic, executable stand-in for the validator
hash. -/
def sha256Hex (s : String) : String := bytesToHex (s.data.flatMap encChar)

structure SecState where
  isLocked : Bool
  encryptionSalt : Option String
  passcodeValidator : Option String
  dbKey : Option Nat
deriving DecidableEq, Repr

/-- First load with empty localStorage: `Unconfigured`. -/
def initialSecState : SecState := ⟨false, none, none, none⟩

/-- Source `handleUnlock(code)`: recompute the validator hash from the
candidate code and the stored salt; on a match derive the key, install it,
unlock, return `true`; otherwise return `false` unchanged. -/
def handleUnlock (code : String) (s : SecState) : Bool × SecState :=
  match s.encryptionSalt, s.passcodeValidator with
  | some salt, some validator =>
    if sha256Hex (code ++ salt) = validator then
      (true, { s with isLocked := false, dbKey := some (deriveKey code salt) })
    else (false, s)
  | _, _ => (false, s)

/-- Source `lockApp()`: clear the db key, lock. -/
def lockApp (s : SecState) : SecState :=
  { s with isLocked := true, dbKey := none }

/-- Source `updatePasscodeConfig(newCode)`.  Setting generates a fresh salt
(from `saltEntropy`), persists salt and validator and returns the derived
key (the caller hands it to `migrateToEncrypted`; the function itself does
not install it).  Removing erases both values and clears the db key. -/
def updatePasscodeConfig (newCode : Option String) (saltEntropy : List Nat)
    (s : SecState) : Option Nat × SecState :=
  match newCode with
  | some code =>
    let salt := generateSalt saltEntropy
    let validator := sha256Hex (code ++ salt)
    (some (deriveKey code salt),
     { s with encryptionSalt := some salt, passcodeValidator := some validator })
  | none =>
    (none, { s with encryptionSalt := none, passcodeValidator := none, dbKey := none })

/-- The passcode operations of the hook, for reachability statements. -/
inductive SecOp : Type where
  | unlock (code : String)
  | lock
  | setPass (code : String) (saltEntropy : List Nat)
  | removePass
deriving Repr

def applySecOp (s : SecState) : SecOp → SecState
  | .unlock code => (handleUnlock code s).2
  | .lock => lockApp s
  | .setPass code ent => (updatePasscodeConfig (some code) ent s).2
  | .removePass => (updatePasscodeConfig none [] s).2

def runSecOps (ops : List SecOp) : SecState :=
  ops.foldl applySecOp initialSecState

/-- Whether a passcode has ever been set in the trace. -/
def everSet (ops : List SecOp) : Bool :=
  ops.any fun op =>
    match op with
    | .setPass _ _ => true
    | _ => false

/-- Whether a passcode is currently configured: the most recent set/remove
operation is a set. -/
def currentlyConfigured (ops : List SecOp) : Bool :=
  ops.foldl (fun acc op =>
    match op with
    | .setPass _ _ => true
    | .removePass => false
    | _ => acc) false

/-! ## Supporting lemmas -/

theorem sortEntries_perm (l : List EntryMeta) : List.Perm (sortEntries l) l :=
  List.perm_insertionSort entryLe l

theorem orderedInsert_map (f : EntryMeta → EntryMeta)
    (hf : ∀ x, (f x).createdAt = x.createdAt) (a : EntryMeta) (l : List EntryMeta) :
    List.orderedInsert entryLe (f a) (l.map f) = (List.orderedInsert entryLe a l).map f := by
  induction l with
  | nil => rfl
  | cons b t ih =>
    by_cases h : entryLe a b
    · have h' : entryLe (f a) (f b) := by
        unfold entryLe at h ⊢
        rw [hf, hf]
        exact h
      simp [List.orderedInsert, h, h']
    · have h' : ¬ entryLe (f a) (f b) := by
        unfold entryLe at h ⊢
        rw [hf, hf]
        exact h
      simp [List.orderedInsert, h, h', ih]

theorem sortEntries_map (f : EntryMeta → EntryMeta)
    (hf : ∀ x, (f x).createdAt = x.createdAt) (l : List EntryMeta) :
    sortEntries (l.map f) = (sortEntries l).map f := by
  induction l with
  | nil => rfl
  | cons a t ih =>
    show List.orderedInsert entryLe (f a) (sortEntries (t.map f))
      = (List.orderedInsert entryLe a (sortEntries t)).map f
    rw [ih, orderedInsert_map f hf]

/-- What survives the metadata encrypt/decrypt round-trip: every field but
the optional `duration`, which is in neither the clear envelope nor the
sensitive payload. -/
def stripDur (m : EntryMeta) : EntryMeta := { m with duration := none }

theorem stripDur_createdAt (m : EntryMeta) : (stripDur m).createdAt = m.createdAt := rfl

/-- The metadata record `saveEntry` writes (`dataToSave`). -/
def saveRec (key : Option Nat) (ivEntry : List Nat) (m : EntryMeta) : EntryRec :=
  match key with
  | some k =>
    .enc m.id m.createdAt m.isProcessing
      (encryptData k (sensToJ (sensOfMeta m)) ivEntry).1
      (encryptData k (sensToJ (sensOfMeta m)) ivEntry).2
  | none => .plain m

theorem metaOfSens_sensOfMeta (m : EntryMeta) :
    metaOfSens m.id m.createdAt m.isProcessing (sensOfMeta m) = stripDur m := rfl

theorem decode_saveRec_enc (k : Nat) {iv : List Nat} (hiv : IvOK iv) (m : EntryMeta) :
    decodeEntryRec (some k) (saveRec (some k) iv m) = stripDur m := by
  show (match decryptData k (encryptData k (sensToJ (sensOfMeta m)) iv).1
      (encryptData k (sensToJ (sensOfMeta m)) iv).2 with
    | some j =>
      match sensOfJ j with
      | some s => metaOfSens m.id m.createdAt m.isProcessing s
      | none => malformedPayload m.id m.createdAt m.isProcessing
    | none => lockedPlaceholder m.id m.createdAt m.isProcessing) = stripDur m
  rw [decryptData_encryptData k _ hiv]
  show (match sensOfJ (sensToJ (sensOfMeta m)) with
    | some s => metaOfSens m.id m.createdAt m.isProcessing s
    | none => malformedPayload m.id m.createdAt m.isProcessing) = stripDur m
  rw [sensOfJ_sensToJ]
  exact metaOfSens_sensOfMeta m

theorem saveEntry_entries (key : Option Nat) (ivs : IvPack) (e : JournalEntry) (db : DB) :
    (saveEntry key ivs e db).entries
      = upsertA e.id (saveRec key ivs.entryIv e.toEntryMeta) db.entries := by
  obtain ⟨m, ab, sb, gb⟩ := e
  unfold saveEntry saveRec
  cases key <;> cases ab <;> cases sb <;> cases gb <;> rfl

theorem saveEntry_audio (key : Option Nat) (ivs : IvPack) (e : JournalEntry) (db : DB) :
    (saveEntry key ivs e db).audio
      = (match e.audioBlob with
         | some b => upsertA e.id (storeBlob key ivs.audioIv b) db.audio
         | none => db.audio) := by
  obtain ⟨m, ab, sb, gb⟩ := e
  unfold saveEntry
  cases key <;> cases ab <;> cases sb <;> cases gb <;> rfl

theorem saveEntry_images (key : Option Nat) (ivs : IvPack) (e : JournalEntry) (db : DB) :
    (saveEntry key ivs e db).images
      = (match e.generatedImageBlob with
         | some bg =>
           upsertA (e.id ++ "_art") (storeBlob key ivs.artIv bg)
             (match e.snapshotBlob with
              | some bs => upsertA (e.id ++ "_snapshot") (storeBlob key ivs.snapshotIv bs) db.images
              | none => db.images)
         | none =>
           match e.snapshotBlob with
           | some bs => upsertA (e.id ++ "_snapshot") (storeBlob key ivs.snapshotIv bs) db.images
           | none => db.images) := by
  obtain ⟨m, ab, sb, gb⟩ := e
  unfold saveEntry
  cases key <;> cases ab <;> cases sb <;> cases gb <;> rfl

/-! ## Concrete sample data for witnesses -/

def ivW : List Nat := List.replicate 12 3

def metaW : EntryMeta :=
  { id := "a", createdAt := 5, duration := some 9, transcription := "t",
    summary := none, title := "T", mood := "calm", tags := ["x"],
    insights := [⟨.memory, "i", "c"⟩], location := some ⟨1, 2, some "n", none⟩,
    isProcessing := false, prompt := none, inputType := some .audio }

def entryW : JournalEntry :=
  { toEntryMeta := metaW, audioBlob := none, snapshotBlob := none,
    generatedImageBlob := none }

def ivPackW : IvPack := ⟨ivW, ivW, ivW, ivW⟩

/-! ## Claims -/

/-- C3: for every JSON-serializable value `v` and valid key `k`, decrypting
the output of `encryptData(k, v)` with the same key (using the returned iv
and cipherText) returns `v`; the same round-trip identity holds for
`encryptBuffer`/`decryptBuffer` over arbitrary byte buffers. -/
theorem C3_crypto_roundtrip (k : Nat) (iv : List Nat) (hiv : IvOK iv) :
    (∀ v : JVal,
      decryptData k (encryptData k v iv).1 (encryptData k v iv).2 = some v) ∧
    (∀ buffer : List Nat,
      decryptBuffer k (encryptBuffer k buffer iv).1 (encryptBuffer k buffer iv).2
        = some buffer) :=
  ⟨fun v => decryptData_encryptData k v hiv,
   fun b => decryptBuffer_encryptBuffer k b hiv⟩

theorem C3_crypto_roundtrip_witness :
    (∀ v : JVal,
      decryptData 7 (encryptData 7 v ivW).1 (encryptData 7 v ivW).2 = some v) ∧
    (∀ buffer : List Nat,
      decryptBuffer 7 (encryptBuffer 7 buffer ivW).1 (encryptBuffer 7 buffer ivW).2
        = some buffer) :=
  C3_crypto_roundtrip 7 ivW (by decide)

/-- C4: for every value `v` and pair of distinct keys, decrypting
`encryptData(k1, v)`'s ciphertext with `k2 ≠ k1` always fails with a
`DecryptionError` (the thrown failure, modelled `none`) and never returns a
value. -/
theorem C4_wrong_key_fails (k1 k2 : Nat) (hne : k2 ≠ k1) (v : JVal)
    (iv : List Nat) (hiv : IvOK iv) :
    decryptData k2 (encryptData k1 v iv).1 (encryptData k1 v iv).2 = none :=
  decryptData_encryptData_wrong_key k1 k2 hne v hiv

theorem C4_wrong_key_fails_witness :
    decryptData 1 (encryptData 0 .jnull ivW).1 (encryptData 0 .jnull ivW).2 = none :=
  C4_wrong_key_fails 0 1 (by decide) .jnull ivW (by decide)

/-- C10: for every stored corpus and every key state, `getAllEntries` is
sorted in descending order of `createdAt` (newest first). -/
theorem C10_sorted_desc (key : Option Nat) (db : DB) :
    List.Sorted entryLe (getAllEntries key db) :=
  List.sorted_insertionSort entryLe _

/-- C7: a `saveEntry` call whose entry carries no `audioBlob`,
`snapshotBlob` or `generatedImageBlob` rewrites only that id's metadata
record: the audio and image stores are untouched, and every other metadata
row is unchanged. -/
theorem C7_metadata_only_save (key : Option Nat) (ivs : IvPack) (e : JournalEntry)
    (db : DB) (ha : e.audioBlob = none) (hs : e.snapshotBlob = none)
    (hg : e.generatedImageBlob = none) :
    (saveEntry key ivs e db).audio = db.audio ∧
    (saveEntry key ivs e db).images = db.images ∧
    (∀ id, id ≠ e.id →
      lookupA id (saveEntry key ivs e db).entries = lookupA id db.entries) := by
  refine ⟨?_, ?_, ?_⟩
  · rw [saveEntry_audio, ha]
  · rw [saveEntry_images, hg, hs]
  · intro id hid
    rw [saveEntry_entries]
    exact lookupA_upsertA_ne hid _ _

theorem C7_metadata_only_save_witness :
    (saveEntry (some 5) ivPackW entryW emptyDB).audio = emptyDB.audio ∧
    (saveEntry (some 5) ivPackW entryW emptyDB).images = emptyDB.images ∧
    (∀ id, id ≠ entryW.id →
      lookupA id (saveEntry (some 5) ivPackW entryW emptyDB).entries
        = lookupA id emptyDB.entries) :=
  C7_metadata_only_save (some 5) ivPackW entryW emptyDB rfl rfl rfl

/-- C6: with an encryption key active, an entry saved by `saveEntry` and
read back by `getAllEntries` loses its optional `duration`: the read-back
entry is the saved metadata with `duration` absent (it sits in neither the
clear envelope `id`/`createdAt`/`isProcessing` nor the encrypted sensitive
payload). -/
theorem C6_duration_dropped (k : Nat) (ivs : IvPack) (hiv : IvOK ivs.entryIv)
    (e : JournalEntry) :
    getAllEntries (some k) (saveEntry (some k) ivs e emptyDB)
        = [stripDur e.toEntryMeta] ∧
    (stripDur e.toEntryMeta).duration = none := by
  constructor
  · unfold getAllEntries
    rw [saveEntry_entries]
    show sortEntries [decodeEntryRec (some k) (saveRec (some k) ivs.entryIv e.toEntryMeta)]
      = [stripDur e.toEntryMeta]
    rw [decode_saveRec_enc k hiv]
    rfl
  · rfl

theorem C6_duration_dropped_witness :
    getAllEntries (some 3) (saveEntry (some 3) ivPackW entryW emptyDB)
        = [stripDur entryW.toEntryMeta] ∧
    (stripDur entryW.toEntryMeta).duration = none :=
  C6_duration_dropped 3 ivPackW (by decide) entryW

/-- C5: with a configured salt and validator, `handleUnlock` reports success
and installs the derived key exactly when the hash of the candidate code
plus stored salt equals the persisted validator; on a mismatch it reports
failure, changes nothing (so a locked state stays locked) and installs no
key; `lockApp` clears the key rather than deriving one. -/
theorem C5_unlock_validates (code salt validator : String) (s : SecState)
    (hsalt : s.encryptionSalt = some salt)
    (hval : s.passcodeValidator = some validator) :
    ((handleUnlock code s).1 = true ↔ sha256Hex (code ++ salt) = validator) ∧
    (sha256Hex (code ++ salt) = validator →
      (handleUnlock code s).2
        = { s with isLocked := false, dbKey := some (deriveKey code salt) }) ∧
    (sha256Hex (code ++ salt) ≠ validator →
      (handleUnlock code s).1 = false ∧ (handleUnlock code s).2 = s) ∧
    (lockApp s).dbKey = none := by
  unfold handleUnlock lockApp
  rw [hsalt, hval]
  by_cases h : sha256Hex (code ++ salt) = validator
  · simp [h]
  · simp [h]

def secW : SecState :=
  ⟨true, some "ab", some (sha256Hex ("1234" ++ "ab")), none⟩

theorem C5_unlock_validates_witness :
    ((handleUnlock "1234" secW).1 = true
        ↔ sha256Hex ("1234" ++ "ab") = sha256Hex ("1234" ++ "ab")) ∧
    (sha256Hex ("1234" ++ "ab") = sha256Hex ("1234" ++ "ab") →
      (handleUnlock "1234" secW).2
        = { secW with isLocked := false, dbKey := some (deriveKey "1234" "ab") }) ∧
    (sha256Hex ("1234" ++ "ab") ≠ sha256Hex ("1234" ++ "ab") →
      (handleUnlock "1234" secW).1 = false ∧ (handleUnlock "1234" secW).2 = secW) ∧
    (lockApp secW).dbKey = none :=
  C5_unlock_validates "1234" "ab" (sha256Hex ("1234" ++ "ab")) secW rfl rfl

/-! ## C9: the salt/validator presence invariant -/

theorem handleUnlock_config_unchanged (code : String) (s : SecState) :
    (handleUnlock code s).2.encryptionSalt = s.encryptionSalt ∧
    (handleUnlock code s).2.passcodeValidator = s.passcodeValidator := by
  unfold handleUnlock
  cases hs : s.encryptionSalt with
  | none =>
    cases hv : s.passcodeValidator with
    | none => exact ⟨by simp [hs], by simp [hv]⟩
    | some validator => exact ⟨by simp [hs], by simp [hv]⟩
  | some salt =>
    cases hv : s.passcodeValidator with
    | none => exact ⟨by simp [hs], by simp [hv]⟩
    | some validator =>
      by_cases h : sha256Hex (code ++ salt) = validator
      · simp [h, hs, hv]
      · simp [h, hs, hv]

/-- The step function of `currentlyConfigured`. -/
def confStep (acc : Bool) (op : SecOp) : Bool :=
  match op with
  | .setPass _ _ => true
  | .removePass => false
  | _ => acc

theorem secInv_fold : ∀ (ops : List SecOp) (s : SecState) (b : Bool),
    (s.encryptionSalt.isSome ↔ s.passcodeValidator.isSome) →
    (s.encryptionSalt.isSome ↔ b = true) →
    (((ops.foldl applySecOp s).encryptionSalt.isSome
        ↔ (ops.foldl applySecOp s).passcodeValidator.isSome) ∧
     ((ops.foldl applySecOp s).encryptionSalt.isSome
        ↔ (ops.foldl confStep b) = true)) := by
  intro ops
  induction ops with
  | nil => exact fun s b h1 h2 => ⟨h1, h2⟩
  | cons op t ih =>
    intro s b h1 h2
    cases op with
    | unlock code =>
      refine ih _ _ ?_ ?_ <;> simp only [applySecOp]
      · rw [(handleUnlock_config_unchanged code s).1,
          (handleUnlock_config_unchanged code s).2]
        exact h1
      · rw [(handleUnlock_config_unchanged code s).1]
        exact h2
    | lock =>
      refine ih _ _ ?_ ?_
      · exact h1
      · exact h2
    | setPass code ent =>
      refine ih _ _ ?_ ?_ <;> simp [applySecOp, updatePasscodeConfig, confStep]
    | removePass =>
      refine ih _ _ ?_ ?_ <;> simp [applySecOp, updatePasscodeConfig, confStep]

/-- C9 counterexample: the trace `setPasscode` then `removePasscode` reaches
a state where a passcode HAS ever been set yet salt and validator are both
absent — the claimed biconditional fails. -/
theorem C9_counterexample :
    everSet [SecOp.setPass "1234" (List.replicate 16 0), SecOp.removePass] = true ∧
    (runSecOps [SecOp.setPass "1234" (List.replicate 16 0),
        SecOp.removePass]).encryptionSalt.isSome = false ∧
    (runSecOps [SecOp.setPass "1234" (List.replicate 16 0),
        SecOp.removePass]).passcodeValidator.isSome = false := by
  refine ⟨rfl, ?_, ?_⟩ <;> rfl

/-- C9 (amended): in every state reachable through the passcode operations,
salt and validator are both present or both absent, and they are present
exactly when a passcode is *currently configured* (set more recently than
any removal) — not when one was merely ever set. -/
theorem C9_salt_validator_invariant (ops : List SecOp) :
    ((runSecOps ops).encryptionSalt.isSome
        ↔ (runSecOps ops).passcodeValidator.isSome) ∧
    ((runSecOps ops).encryptionSalt.isSome ↔ currentlyConfigured ops = true) :=
  secInv_fold ops initialSecState false (by simp [initialSecState]) (by simp [initialSecState])

/-! ## C2: partial corruption containment -/

/-- A store of `N = |goods1| + 1 + |goods2|` encrypted records, all written
by `saveEntry` under key `k` except one whose ciphertext is corrupted. -/
def corruptedDB (k : Nat) (ivFor : String → List Nat)
    (goods1 goods2 : List EntryMeta)
    (bid : String) (bca : Int) (bip : Bool) (ivB ctB : String) : DB :=
  ⟨goods1.map (fun m => (m.id, saveRec (some k) (ivFor m.id) m))
    ++ (bid, EntryRec.enc bid bca bip ivB ctB)
      :: goods2.map (fun m => (m.id, saveRec (some k) (ivFor m.id) m)),
   [], []⟩

/-- C2: with the correct key active and exactly one record's ciphertext
corrupted, `getAllEntries` returns exactly N entries — a permutation of the
one "Locked Memory" placeholder (empty tags and insights) and the N−1
intact decrypted entries; nothing is omitted and nothing throws (the
function is total). -/
theorem C2_corruption_contained (k : Nat) (ivFor : String → List Nat)
    (hiv : ∀ id, IvOK (ivFor id))
    (goods1 goods2 : List EntryMeta)
    (bid : String) (bca : Int) (bip : Bool) (ivB ctB : String)
    (hbad : decryptData k ivB ctB = none) :
    (getAllEntries (some k) (corruptedDB k ivFor goods1 goods2 bid bca bip ivB ctB)).length
        = goods1.length + 1 + goods2.length ∧
    lockedPlaceholder bid bca bip
        ∈ getAllEntries (some k) (corruptedDB k ivFor goods1 goods2 bid bca bip ivB ctB) ∧
    (lockedPlaceholder bid bca bip).tags = [] ∧
    (lockedPlaceholder bid bca bip).insights = [] ∧
    (lockedPlaceholder bid bca bip).title = "Locked Memory" ∧
    (∀ m ∈ goods1 ++ goods2, stripDur m
        ∈ getAllEntries (some k) (corruptedDB k ivFor goods1 goods2 bid bca bip ivB ctB)) ∧
    List.Perm (getAllEntries (some k) (corruptedDB k ivFor goods1 goods2 bid bca bip ivB ctB))
      (lockedPlaceholder bid bca bip :: (goods1 ++ goods2).map stripDur) := by
  have hmap : (corruptedDB k ivFor goods1 goods2 bid bca bip ivB ctB).entries.map
      (fun p => decodeEntryRec (some k) p.2)
      = goods1.map stripDur ++ lockedPlaceholder bid bca bip :: goods2.map stripDur := by
    show (goods1.map (fun m => (m.id, saveRec (some k) (ivFor m.id) m))
        ++ (bid, EntryRec.enc bid bca bip ivB ctB)
          :: goods2.map (fun m => (m.id, saveRec (some k) (ivFor m.id) m))).map
        (fun p => decodeEntryRec (some k) p.2) = _
    rw [List.map_append, List.map_cons, List.map_map, List.map_map]
    refine congrArg₂ _ ?_ (congrArg₂ _ ?_ ?_)
    · exact List.map_congr_left fun m _ => decode_saveRec_enc k (hiv m.id) m
    · show decodeEntryRec (some k) (.enc bid bca bip ivB ctB) = _
      show (match decryptData k ivB ctB with
        | some j =>
          match sensOfJ j with
          | some s => metaOfSens bid bca bip s
          | none => malformedPayload bid bca bip
        | none => lockedPlaceholder bid bca bip) = lockedPlaceholder bid bca bip
      rw [hbad]
    · exact List.map_congr_left fun m _ => decode_saveRec_enc k (hiv m.id) m
  have hperm : List.Perm
      (getAllEntries (some k) (corruptedDB k ivFor goods1 goods2 bid bca bip ivB ctB))
      (lockedPlaceholder bid bca bip :: (goods1 ++ goods2).map stripDur) := by
    unfold getAllEntries
    rw [hmap]
    refine (sortEntries_perm _).trans ?_
    rw [List.map_append]
    exact List.perm_middle
  refine ⟨?_, ?_, rfl, rfl, rfl, ?_, hperm⟩
  · have := hperm.length_eq
    simp [List.length_map, List.length_append] at this
    omega
  · exact hperm.mem_iff.mpr (List.mem_cons_self _ _)
  · intro m hm
    refine hperm.mem_iff.mpr (List.mem_cons_of_mem _ ?_)
    exact List.mem_map_of_mem stripDur hm

theorem ivWOK : IvOK ivW := by decide

theorem C2_corruption_contained_witness :
    (getAllEntries (some 0) (corruptedDB 0 (fun _ => ivW) [metaW] [] "b" 7 false "00" "00")).length
        = [metaW].length + 1 + ([] : List EntryMeta).length ∧
    lockedPlaceholder "b" 7 false
        ∈ getAllEntries (some 0) (corruptedDB 0 (fun _ => ivW) [metaW] [] "b" 7 false "00" "00") ∧
    (lockedPlaceholder "b" 7 false).tags = [] ∧
    (lockedPlaceholder "b" 7 false).insights = [] ∧
    (lockedPlaceholder "b" 7 false).title = "Locked Memory" ∧
    (∀ m ∈ [metaW] ++ ([] : List EntryMeta), stripDur m
        ∈ getAllEntries (some 0) (corruptedDB 0 (fun _ => ivW) [metaW] [] "b" 7 false "00" "00")) ∧
    List.Perm
      (getAllEntries (some 0) (corruptedDB 0 (fun _ => ivW) [metaW] [] "b" 7 false "00" "00"))
      (lockedPlaceholder "b" 7 false :: ([metaW] ++ ([] : List EntryMeta)).map stripDur) :=
  C2_corruption_contained 0 (fun _ => ivW) (fun _ => ivWOK) [metaW] [] "b" 7 false "00" "00" rfl

/-! ## C8: delete removes all four rows -/

/-- IndexedDB enforces `keyPath: 'id'`: every metadata row is keyed by its
record's own id. -/
def WellKeyed (db : DB) : Prop := ∀ p ∈ db.entries, EntryRec.recId p.2 = p.1

theorem decodeEntryRec_id (key : Option Nat) (r : EntryRec) :
    (decodeEntryRec key r).id = EntryRec.recId r := by
  cases r with
  | plain m => rfl
  | enc id c p iv ct =>
    cases key with
    | none => rfl
    | some k =>
      show (match decryptData k iv ct with
        | some j =>
          match sensOfJ j with
          | some s => metaOfSens id c p s
          | none => malformedPayload id c p
        | none => lockedPlaceholder id c p).id = id
      cases decryptData k iv ct with
      | none => rfl
      | some j =>
        show (match sensOfJ j with
          | some s => metaOfSens id c p s
          | none => malformedPayload id c p).id = id
        cases sensOfJ j with
        | none => rfl
        | some s => rfl

theorem snapshot_key_ne_art_key (a : String) : a ++ "_snapshot" ≠ a ++ "_art" := by
  intro h
  have := congrArg String.length h
  simp [String.length_append] at this
  exact absurd this (by decide)

/-- C8: `deleteEntry(id)` removes the metadata row, the audio row, and the
two image rows `id_snapshot` / `id_art`; afterwards `getEntryAudio id` is
absent and `getAllEntries` excludes `id`; deleting an id with no stored
rows is a no-op (and, being a total function, resolves without error). -/
theorem C8_delete_entry (id : String) (db : DB) (key : Option Nat)
    (hwk : WellKeyed db) :
    lookupA id (deleteEntry id db).entries = none ∧
    lookupA id (deleteEntry id db).audio = none ∧
    lookupA (id ++ "_snapshot") (deleteEntry id db).images = none ∧
    lookupA (id ++ "_art") (deleteEntry id db).images = none ∧
    getEntryAudio key id (deleteEntry id db) = none ∧
    (∀ m ∈ getAllEntries key (deleteEntry id db), m.id ≠ id) ∧
    (lookupA id db.entries = none → lookupA id db.audio = none →
      lookupA (id ++ "_snapshot") db.images = none →
      lookupA (id ++ "_art") db.images = none →
      deleteEntry id db = db) := by
  refine ⟨lookupA_eraseA_self id _, lookupA_eraseA_self id _, ?_, ?_, ?_, ?_, ?_⟩
  · show lookupA (id ++ "_snapshot")
      (eraseA (id ++ "_art") (eraseA (id ++ "_snapshot") db.images)) = none
    rw [lookupA_eraseA_ne (snapshot_key_ne_art_key id)]
    exact lookupA_eraseA_self _ _
  · exact lookupA_eraseA_self _ _
  · show (match lookupA id (deleteEntry id db).audio with
      | none => none
      | some (.enc iv data ty) =>
        if iv = "" then none
        else
          match key with
          | some k =>
            match decryptBuffer k iv data with
            | some buf => some ⟨buf, if ty = "" then "audio/webm" else ty⟩
            | none => none
          | none => none
      | some (.plain b) => some b) = none
    rw [show lookupA id (deleteEntry id db).audio = none from lookupA_eraseA_self id _]
  · intro m hm
    have hperm := sortEntries_perm ((deleteEntry id db).entries.map
      (fun p => decodeEntryRec key p.2))
    have hm' : m ∈ (deleteEntry id db).entries.map (fun p => decodeEntryRec key p.2) :=
      hperm.mem_iff.mp hm
    rcases List.mem_map.mp hm' with ⟨p, hp, hdec⟩
    have hpdb : p ∈ db.entries := List.mem_of_mem_filter hp
    have hkeep : p.1 ≠ id := by
      have := List.of_mem_filter hp
      simpa using this
    intro hmid
    apply hkeep
    rw [← hwk p hpdb, ← decodeEntryRec_id key p.2, hdec, hmid]
  · intro he ha hs hg
    show DB.mk (eraseA id db.entries) (eraseA id db.audio)
      (eraseA (id ++ "_art") (eraseA (id ++ "_snapshot") db.images)) = db
    rw [eraseA_of_not_mem he, eraseA_of_not_mem ha, eraseA_of_not_mem hs,
      eraseA_of_not_mem hg]

def dbW : DB :=
  ⟨[("a", .plain metaW)], [("a", .plain ⟨[1, 2], "audio/webm"⟩)],
   [("a_snapshot", .plain ⟨[3], "image/jpeg"⟩)]⟩

theorem C8_delete_entry_witness :
    lookupA "z" (deleteEntry "z" dbW).entries = none ∧
    lookupA "z" (deleteEntry "z" dbW).audio = none ∧
    lookupA ("z" ++ "_snapshot") (deleteEntry "z" dbW).images = none ∧
    lookupA ("z" ++ "_art") (deleteEntry "z" dbW).images = none ∧
    getEntryAudio (some 0) "z" (deleteEntry "z" dbW) = none ∧
    (∀ m ∈ getAllEntries (some 0) (deleteEntry "z" dbW), m.id ≠ "z") ∧
    (lookupA "z" dbW.entries = none → lookupA "z" dbW.audio = none →
      lookupA ("z" ++ "_snapshot") dbW.images = none →
      lookupA ("z" ++ "_art") dbW.images = none →
      deleteEntry "z" dbW = dbW) :=
  C8_delete_entry "z" dbW (some 0) (by intro p hp; simp [dbW] at hp; rw [hp]; rfl)

/-! ## C1: migration round-trip

A *corpus* is the canonical plaintext store layout of §6 of the spec: one
plain metadata row per entry, the audio row keyed by the id, the image rows
keyed by `id_snapshot` / `id_art`. -/

structure CorpusEntry where
  meta : EntryMeta
  audio : Option Blob
  snapshot : Option Blob
  art : Option Blob
deriving DecidableEq, Repr

def imageRowsOf (ce : CorpusEntry) : List (String × BlobRec) :=
  (match ce.snapshot with
   | some b => [(ce.meta.id ++ "_snapshot", BlobRec.plain b)]
   | none => []) ++
  (match ce.art with
   | some b => [(ce.meta.id ++ "_art", BlobRec.plain b)]
   | none => [])

def dbOfCorpus (c : List CorpusEntry) : DB :=
  { entries := c.map (fun ce => (ce.meta.id, EntryRec.plain ce.meta)),
    audio := c.filterMap (fun ce => ce.audio.map (fun b => (ce.meta.id, BlobRec.plain b))),
    images := c.flatMap imageRowsOf }

def corpusIds (c : List CorpusEntry) : List String := c.map (fun ce => ce.meta.id)

/-- The corpus hypotheses of the round-trip: distinct ids, and every stored
blob carries a nonempty MIME type (an empty `Blob.type` is falsy in JS, so
the decrypt path would substitute the default type on the way back). -/
def CorpusOK (c : List CorpusEntry) : Prop :=
  (corpusIds c).Nodup ∧
  (∀ ce ∈ c, ∀ b : Blob, ce.audio = some b → b.type ≠ "") ∧
  (∀ ce ∈ c, ∀ b : Blob, ce.snapshot = some b → b.type ≠ "") ∧
  (∀ ce ∈ c, ∀ b : Blob, ce.art = some b → b.type ≠ "")

/-! ### Image-store key disjointness -/

theorem string_append_right_cancel {a b c : String} (h : a ++ c = b ++ c) : a = b := by
  have hd : a.data ++ c.data = b.data ++ c.data := by
    have := congrArg String.data h
    simpa using this
  have hab : a.data = b.data := by
    exact List.append_cancel_right hd
  cases a
  cases b
  exact congrArg String.mk hab

theorem snapshot_key_inj {a b : String} (h : a ++ "_snapshot" = b ++ "_snapshot") : a = b :=
  string_append_right_cancel h

theorem art_key_inj {a b : String} (h : a ++ "_art" = b ++ "_art") : a = b :=
  string_append_right_cancel h

theorem snapshot_key_ne_art_key_cross (a b : String) : a ++ "_snapshot" ≠ b ++ "_art" := by
  intro h
  have hd : a.data ++ "_snapshot".data = b.data ++ "_art".data := by
    have := congrArg String.data h
    simpa using this
  have hrev : "_snapshot".data.reverse ++ a.data.reverse
      = "_art".data.reverse ++ b.data.reverse := by
    have := congrArg List.reverse hd
    simpa [List.reverse_append] using this
  have h1 : ("_snapshot".data.reverse ++ a.data.reverse)[1]? = some 'o' := by
    rw [List.getElem?_append]
    rfl
  rw [hrev] at h1
  rw [List.getElem?_append] at h1
  simp at h1

theorem identity_ne_snapshot_key (a : String) : IDENTITY_KEY ≠ a ++ "_snapshot" := by
  intro h
  have hd : IDENTITY_KEY.data = a.data ++ "_snapshot".data := by
    have := congrArg String.data h
    simpa using this
  have hrev : IDENTITY_KEY.data.reverse = "_snapshot".data.reverse ++ a.data.reverse := by
    have := congrArg List.reverse hd
    simpa [List.reverse_append] using this
  have h1 : IDENTITY_KEY.data.reverse[0]? = some 'e' := by rfl
  rw [hrev] at h1
  rw [List.getElem?_append] at h1
  simp at h1

theorem identity_ne_art_key (a : String) : IDENTITY_KEY ≠ a ++ "_art" := by
  intro h
  have hd : IDENTITY_KEY.data = a.data ++ "_art".data := by
    have := congrArg String.data h
    simpa using this
  have hrev : IDENTITY_KEY.data.reverse = "_art".data.reverse ++ a.data.reverse := by
    have := congrArg List.reverse hd
    simpa [List.reverse_append] using this
  have h1 : IDENTITY_KEY.data.reverse[0]? = some 'e' := by rfl
  rw [hrev] at h1
  rw [List.getElem?_append] at h1
  simp at h1

/-! ### Getter characterizations -/

theorem getEntryAudio_absent (key : Option Nat) (id : String) (db : DB)
    (h : lookupA id db.audio = none) : getEntryAudio key id db = none := by
  unfold getEntryAudio
  rw [h]

theorem getEntryAudio_plain (key : Option Nat) (id : String) (db : DB) (b : Blob)
    (h : lookupA id db.audio = some (.plain b)) : getEntryAudio key id db = some b := by
  unfold getEntryAudio
  rw [h]

theorem getEntryImage_absent (key : Option Nat) (id : String) (kind : ImgKind) (db : DB)
    (h : lookupA (id ++ kind.keySuffix) db.images = none) :
    getEntryImage key id kind db = none := by
  unfold getEntryImage
  rw [h]

theorem getEntryImage_plain (key : Option Nat) (id : String) (kind : ImgKind) (db : DB)
    (b : Blob) (h : lookupA (id ++ kind.keySuffix) db.images = some (.plain b)) :
    getEntryImage key id kind db = some b := by
  unfold getEntryImage
  rw [h]

theorem getEntryAudio_enc (k : Nat) (id : String) (db : DB) (b : Blob) {iv : List Nat}
    (hiv : IvOK iv) (hty : b.type ≠ "")
    (h : lookupA id db.audio = some (storeBlob (some k) iv b)) :
    getEntryAudio (some k) id db = some b := by
  unfold getEntryAudio
  rw [h]
  show (if bytesToHex iv = "" then none
    else
      match decryptBuffer k (bytesToHex iv) (aesGcmEncrypt k iv b.data) with
      | some buf => some ⟨buf, if b.type = "" then "audio/webm" else b.type⟩
      | none => none) = some b
  have hne : bytesToHex iv ≠ "" := bytesToHex_ne_empty (by
    intro hcontra
    have := hiv.1
    rw [hcontra] at this
    simp at this)
  rw [if_neg hne]
  have hdec := decryptBuffer_encryptBuffer k b.data hiv
  show (match decryptBuffer k (encryptBuffer k b.data iv).1 (encryptBuffer k b.data iv).2 with
    | some buf => some (⟨buf, if b.type = "" then "audio/webm" else b.type⟩ : Blob)
    | none => none) = some b
  rw [hdec, if_neg hty]

theorem getEntryImage_enc (k : Nat) (id : String) (kind : ImgKind) (db : DB) (b : Blob)
    {iv : List Nat} (hiv : IvOK iv) (hty : b.type ≠ "")
    (h : lookupA (id ++ kind.keySuffix) db.images = some (storeBlob (some k) iv b)) :
    getEntryImage (some k) id kind db = some b := by
  unfold getEntryImage
  rw [h]
  show (if bytesToHex iv = "" then none
    else
      match decryptBuffer k (bytesToHex iv) (aesGcmEncrypt k iv b.data) with
      | some buf => some ⟨buf, if b.type = "" then "image/jpeg" else b.type⟩
      | none => none) = some b
  have hne : bytesToHex iv ≠ "" := bytesToHex_ne_empty (by
    intro hcontra
    have := hiv.1
    rw [hcontra] at this
    simp at this)
  rw [if_neg hne]
  have hdec := decryptBuffer_encryptBuffer k b.data hiv
  show (match decryptBuffer k (encryptBuffer k b.data iv).1 (encryptBuffer k b.data iv).2 with
    | some buf => some (⟨buf, if b.type = "" then "image/jpeg" else b.type⟩ : Blob)
    | none => none) = some b
  rw [hdec, if_neg hty]

theorem getUserIdentityImage_absent (key : Option Nat) (db : DB)
    (h : lookupA IDENTITY_KEY db.images = none) :
    getUserIdentityImage key db = none := by
  unfold getUserIdentityImage
  rw [h]

/-! ### Corpus store lookups -/

theorem lookupA_append {α : Type} (k : String) (l1 l2 : List (String × α)) :
    lookupA k (l1 ++ l2)
      = (match lookupA k l1 with
         | some v => some v
         | none => lookupA k l2) := by
  induction l1 with
  | nil => rfl
  | cons p t ih =>
    obtain ⟨k0, v0⟩ := p
    by_cases h : k0 = k
    · simp [lookupA, h]
    · simp [lookupA, h, ih]

theorem corpus_entries_eq (c : List CorpusEntry) :
    (dbOfCorpus c).entries = c.map (fun ce => (ce.meta.id, EntryRec.plain ce.meta)) := rfl

theorem corpus_entries_keys (c : List CorpusEntry) :
    keysA (dbOfCorpus c).entries = corpusIds c := by
  unfold dbOfCorpus corpusIds keysA
  rw [List.map_map]
  rfl

theorem corpus_entries_lookup (c : List CorpusEntry) (hnd : (corpusIds c).Nodup) :
    ∀ ce ∈ c, lookupA ce.meta.id (dbOfCorpus c).entries = some (.plain ce.meta) := by
  induction c with
  | nil => intro ce hce; cases hce
  | cons hd t ih =>
    intro ce hce
    have hnd' : (corpusIds t).Nodup := (List.nodup_cons.mp hnd).2
    have hhd : hd.meta.id ∉ corpusIds t := (List.nodup_cons.mp hnd).1
    rcases List.mem_cons.mp hce with rfl | hce'
    · simp [dbOfCorpus, lookupA]
    · by_cases heq : hd.meta.id = ce.meta.id
      · exact absurd (heq ▸ List.mem_map_of_mem (fun x => x.meta.id) hce') hhd
      · show lookupA ce.meta.id ((hd.meta.id, EntryRec.plain hd.meta)
            :: t.map (fun x => (x.meta.id, EntryRec.plain x.meta))) = some (.plain ce.meta)
        rw [show lookupA ce.meta.id ((hd.meta.id, EntryRec.plain hd.meta)
            :: t.map (fun x => (x.meta.id, EntryRec.plain x.meta)))
          = lookupA ce.meta.id (t.map (fun x => (x.meta.id, EntryRec.plain x.meta)))
          from by simp [lookupA, heq]]
        exact ih hnd' ce hce'

theorem corpus_audio_keys_sub (c : List CorpusEntry) :
    ∀ k ∈ keysA (dbOfCorpus c).audio, k ∈ corpusIds c := by
  induction c with
  | nil => intro k hk; simp [dbOfCorpus, keysA] at hk
  | cons hd t ih =>
    intro k hk
    show k ∈ hd.meta.id :: corpusIds t
    cases hau : hd.audio with
    | none =>
      have : k ∈ keysA (dbOfCorpus t).audio := by
        simpa [dbOfCorpus, hau] using hk
      exact List.mem_cons_of_mem _ (ih k this)
    | some b =>
      have : k = hd.meta.id ∨ k ∈ keysA (dbOfCorpus t).audio := by
        simpa [dbOfCorpus, hau, keysA] using hk
      rcases this with rfl | h
      · exact List.mem_cons_self _ _
      · exact List.mem_cons_of_mem _ (ih k h)

theorem corpus_audio_lookup_not_mem (c : List CorpusEntry) {id : String}
    (h : id ∉ corpusIds c) : lookupA id (dbOfCorpus c).audio = none := by
  cases hc : lookupA id (dbOfCorpus c).audio with
  | none => rfl
  | some v =>
    exact absurd (corpus_audio_keys_sub c id (mem_of_lookupA_isSome (by simp [hc]))) h

theorem corpus_audio_lookup (c : List CorpusEntry) (hnd : (corpusIds c).Nodup) :
    ∀ ce ∈ c, lookupA ce.meta.id (dbOfCorpus c).audio = ce.audio.map BlobRec.plain := by
  induction c with
  | nil => intro ce hce; cases hce
  | cons hd t ih =>
    intro ce hce
    have hnd' : (corpusIds t).Nodup := (List.nodup_cons.mp hnd).2
    have hhd : hd.meta.id ∉ corpusIds t := (List.nodup_cons.mp hnd).1
    rcases List.mem_cons.mp hce with rfl | hce'
    · cases hau : ce.audio with
      | none =>
        show lookupA ce.meta.id (dbOfCorpus (ce :: t)).audio = none
        have hrest : (dbOfCorpus (ce :: t)).audio = (dbOfCorpus t).audio := by
          simp [dbOfCorpus, hau]
        rw [hrest]
        exact corpus_audio_lookup_not_mem t hhd
      | some b =>
        have hrest : (dbOfCorpus (ce :: t)).audio
            = (ce.meta.id, BlobRec.plain b) :: (dbOfCorpus t).audio := by
          simp [dbOfCorpus, hau]
        rw [hrest]
        simp [lookupA, hau]
    · by_cases heq : hd.meta.id = ce.meta.id
      · exact absurd (heq ▸ List.mem_map_of_mem (fun x => x.meta.id) hce') hhd
      · cases hau : hd.audio with
        | none =>
          have hrest : (dbOfCorpus (hd :: t)).audio = (dbOfCorpus t).audio := by
            simp [dbOfCorpus, hau]
          rw [hrest]
          exact ih hnd' ce hce'
        | some b =>
          have hrest : (dbOfCorpus (hd :: t)).audio
              = (hd.meta.id, BlobRec.plain b) :: (dbOfCorpus t).audio := by
            simp [dbOfCorpus, hau]
          rw [hrest]
          rw [show lookupA ce.meta.id ((hd.meta.id, BlobRec.plain b) :: (dbOfCorpus t).audio)
            = lookupA ce.meta.id (dbOfCorpus t).audio from by simp [lookupA, heq]]
          exact ih hnd' ce hce'

theorem corpus_images_keys_sub (c : List CorpusEntry) :
    ∀ k ∈ keysA (dbOfCorpus c).images,
      ∃ x ∈ corpusIds c, k = x ++ "_snapshot" ∨ k = x ++ "_art" := by
  induction c with
  | nil => intro k hk; simp [dbOfCorpus, keysA] at hk
  | cons hd t ih =>
    intro k hk
    have hsplit : k ∈ keysA (imageRowsOf hd) ∨ k ∈ keysA (dbOfCorpus t).images := by
      have : (dbOfCorpus (hd :: t)).images = imageRowsOf hd ++ (dbOfCorpus t).images := by
        simp [dbOfCorpus]
      rw [this, keysA, List.map_append] at hk
      exact List.mem_append.mp hk
    rcases hsplit with h | h
    · refine ⟨hd.meta.id, List.mem_cons_self _ _, ?_⟩
      unfold imageRowsOf keysA at h
      cases hs : hd.snapshot <;> cases ha : hd.art <;>
        rw [hs, ha] at h <;> simp at h <;> tauto
    · rcases ih k h with ⟨x, hx, hor⟩
      exact ⟨x, List.mem_cons_of_mem _ hx, hor⟩

theorem corpus_images_snap_not_mem (c : List CorpusEntry) {id : String}
    (h : id ∉ corpusIds c) :
    lookupA (id ++ "_snapshot") (dbOfCorpus c).images = none := by
  cases hc : lookupA (id ++ "_snapshot") (dbOfCorpus c).images with
  | none => rfl
  | some v =>
    rcases corpus_images_keys_sub c (id ++ "_snapshot")
        (mem_of_lookupA_isSome (by simp [hc])) with ⟨x, hx, hor | hor⟩
    · have hid : id = x := snapshot_key_inj hor
      rw [← hid] at hx
      exact absurd hx h
    · exact absurd hor (snapshot_key_ne_art_key_cross id x)

theorem corpus_images_art_not_mem (c : List CorpusEntry) {id : String}
    (h : id ∉ corpusIds c) :
    lookupA (id ++ "_art") (dbOfCorpus c).images = none := by
  cases hc : lookupA (id ++ "_art") (dbOfCorpus c).images with
  | none => rfl
  | some v =>
    rcases corpus_images_keys_sub c (id ++ "_art")
        (mem_of_lookupA_isSome (by simp [hc])) with ⟨x, hx, hor | hor⟩
    · exact absurd hor.symm (snapshot_key_ne_art_key_cross x id)
    · have hid : id = x := art_key_inj hor
      rw [← hid] at hx
      exact absurd hx h

theorem corpus_images_identity_none (c : List CorpusEntry) :
    lookupA IDENTITY_KEY (dbOfCorpus c).images = none := by
  cases hc : lookupA IDENTITY_KEY (dbOfCorpus c).images with
  | none => rfl
  | some v =>
    rcases corpus_images_keys_sub c IDENTITY_KEY
        (mem_of_lookupA_isSome (by simp [hc])) with ⟨x, _, hor | hor⟩
    · exact absurd hor (identity_ne_snapshot_key x)
    · exact absurd hor (identity_ne_art_key x)

theorem lookupA_imageRowsOf_snap (ce : CorpusEntry) :
    lookupA (ce.meta.id ++ "_snapshot") (imageRowsOf ce) = ce.snapshot.map BlobRec.plain := by
  have hne : ce.meta.id ++ "_art" ≠ ce.meta.id ++ "_snapshot" :=
    fun h => snapshot_key_ne_art_key_cross ce.meta.id ce.meta.id h.symm
  unfold imageRowsOf
  cases hs : ce.snapshot <;> cases ha : ce.art <;>
    simp [lookupA, lookupA_append, hne]

theorem lookupA_imageRowsOf_art (ce : CorpusEntry) :
    lookupA (ce.meta.id ++ "_art") (imageRowsOf ce) = ce.art.map BlobRec.plain := by
  have hne : ce.meta.id ++ "_snapshot" ≠ ce.meta.id ++ "_art" :=
    snapshot_key_ne_art_key_cross ce.meta.id ce.meta.id
  unfold imageRowsOf
  cases hs : ce.snapshot <;> cases ha : ce.art <;>
    simp [lookupA, lookupA_append, hne]

theorem corpus_images_snap_lookup (c : List CorpusEntry) (hnd : (corpusIds c).Nodup) :
    ∀ ce ∈ c, lookupA (ce.meta.id ++ "_snapshot") (dbOfCorpus c).images
      = ce.snapshot.map BlobRec.plain := by
  induction c with
  | nil => intro ce hce; cases hce
  | cons hd t ih =>
    intro ce hce
    have hnd2 : (corpusIds t).Nodup := (List.nodup_cons.mp hnd).2
    have hhd : hd.meta.id ∉ corpusIds t := (List.nodup_cons.mp hnd).1
    have himgs : (dbOfCorpus (hd :: t)).images = imageRowsOf hd ++ (dbOfCorpus t).images := by
      simp [dbOfCorpus]
    rw [himgs, lookupA_append]
    rcases List.mem_cons.mp hce with rfl | hce2
    · rw [lookupA_imageRowsOf_snap ce]
      cases hs : ce.snapshot with
      | none =>
        show lookupA (ce.meta.id ++ "_snapshot") (dbOfCorpus t).images = none
        exact corpus_images_snap_not_mem t hhd
      | some b => rfl
    · by_cases heq : hd.meta.id = ce.meta.id
      · exact absurd (heq ▸ List.mem_map_of_mem (fun x => x.meta.id) hce2) hhd
      · have hne1 : hd.meta.id ++ "_snapshot" ≠ ce.meta.id ++ "_snapshot" :=
          fun h => heq (snapshot_key_inj h)
        have hne2 : hd.meta.id ++ "_art" ≠ ce.meta.id ++ "_snapshot" :=
          fun h => snapshot_key_ne_art_key_cross ce.meta.id hd.meta.id h.symm
        have hnone : lookupA (ce.meta.id ++ "_snapshot") (imageRowsOf hd) = none := by
          unfold imageRowsOf
          cases hs : hd.snapshot <;> cases ha : hd.art <;>
            simp [lookupA, lookupA_append, hne1, hne2]
        rw [hnone]
        exact ih hnd2 ce hce2

theorem corpus_images_art_lookup (c : List CorpusEntry) (hnd : (corpusIds c).Nodup) :
    ∀ ce ∈ c, lookupA (ce.meta.id ++ "_art") (dbOfCorpus c).images
      = ce.art.map BlobRec.plain := by
  induction c with
  | nil => intro ce hce; cases hce
  | cons hd t ih =>
    intro ce hce
    have hnd2 : (corpusIds t).Nodup := (List.nodup_cons.mp hnd).2
    have hhd : hd.meta.id ∉ corpusIds t := (List.nodup_cons.mp hnd).1
    have himgs : (dbOfCorpus (hd :: t)).images = imageRowsOf hd ++ (dbOfCorpus t).images := by
      simp [dbOfCorpus]
    rw [himgs, lookupA_append]
    rcases List.mem_cons.mp hce with rfl | hce2
    · rw [lookupA_imageRowsOf_art ce]
      cases ha : ce.art with
      | none =>
        show lookupA (ce.meta.id ++ "_art") (dbOfCorpus t).images = none
        exact corpus_images_art_not_mem t hhd
      | some b => rfl
    · by_cases heq : hd.meta.id = ce.meta.id
      · exact absurd (heq ▸ List.mem_map_of_mem (fun x => x.meta.id) hce2) hhd
      · have hne1 : hd.meta.id ++ "_snapshot" ≠ ce.meta.id ++ "_art" :=
          snapshot_key_ne_art_key_cross hd.meta.id ce.meta.id
        have hne2 : hd.meta.id ++ "_art" ≠ ce.meta.id ++ "_art" :=
          fun h => heq (art_key_inj h)
        have hnone : lookupA (ce.meta.id ++ "_art") (imageRowsOf hd) = none := by
          unfold imageRowsOf
          cases hs : hd.snapshot <;> cases ha : hd.art <;>
            simp [lookupA, lookupA_append, hne1, hne2]
        rw [hnone]
        exact ih hnd2 ce hce2

/-! ### Per-entry step characterization, encryption pass -/

theorem migrateEntryStep_entries (k : Nat) (ivsFor : String → IvPack) (db : DB) (e : EntryMeta) :
    (migrateEntryStep k ivsFor db e).entries
      = upsertA e.id (saveRec (some k) ((ivsFor e.id).entryIv) e) db.entries := by
  unfold migrateEntryStep
  rw [saveEntry_entries]

theorem migrateEntryStep_audio (k : Nat) (ivsFor : String → IvPack) (db : DB) (e : EntryMeta) :
    (migrateEntryStep k ivsFor db e).audio
      = (match getEntryAudio (some k) e.id db with
         | some b => upsertA e.id (storeBlob (some k) ((ivsFor e.id).audioIv) b) db.audio
         | none => db.audio) := by
  unfold migrateEntryStep
  rw [saveEntry_audio]

theorem migrateEntryStep_images (k : Nat) (ivsFor : String → IvPack) (db : DB) (e : EntryMeta) :
    (migrateEntryStep k ivsFor db e).images
      = (match getEntryImage (some k) e.id .art db with
         | some bg =>
           upsertA (e.id ++ "_art") (storeBlob (some k) ((ivsFor e.id).artIv) bg)
             (match getEntryImage (some k) e.id .snapshot db with
              | some bs =>
                upsertA (e.id ++ "_snapshot")
                  (storeBlob (some k) ((ivsFor e.id).snapshotIv) bs) db.images
              | none => db.images)
         | none =>
           match getEntryImage (some k) e.id .snapshot db with
           | some bs =>
             upsertA (e.id ++ "_snapshot")
               (storeBlob (some k) ((ivsFor e.id).snapshotIv) bs) db.images
           | none => db.images) := by
  unfold migrateEntryStep
  rw [saveEntry_images]

theorem migrateEntryStep_audio_lookup_ne (k : Nat) (ivsFor : String → IvPack)
    (db : DB) (e : EntryMeta) {id : String} (hne : id ≠ e.id) :
    lookupA id (migrateEntryStep k ivsFor db e).audio = lookupA id db.audio := by
  rw [migrateEntryStep_audio]
  cases getEntryAudio (some k) e.id db with
  | none => rfl
  | some b => exact lookupA_upsertA_ne hne _ _

theorem migrateEntryStep_images_lookup_ne (k : Nat) (ivsFor : String → IvPack)
    (db : DB) (e : EntryMeta) {key' : String}
    (h1 : key' ≠ e.id ++ "_snapshot") (h2 : key' ≠ e.id ++ "_art") :
    lookupA key' (migrateEntryStep k ivsFor db e).images = lookupA key' db.images := by
  rw [migrateEntryStep_images]
  cases getEntryImage (some k) e.id .art db <;>
    cases getEntryImage (some k) e.id .snapshot db <;>
      simp [lookupA_upsertA_ne h1, lookupA_upsertA_ne h2]

theorem migrateEntryStep_entries_lookup_ne (k : Nat) (ivsFor : String → IvPack)
    (db : DB) (e : EntryMeta) {id : String} (hne : id ≠ e.id) :
    lookupA id (migrateEntryStep k ivsFor db e).entries = lookupA id db.entries := by
  rw [migrateEntryStep_entries]
  exact lookupA_upsertA_ne hne _ _

theorem migrateEntryStep_entries_keys (k : Nat) (ivsFor : String → IvPack)
    (db : DB) (e : EntryMeta) (hmem : e.id ∈ keysA db.entries) :
    keysA (migrateEntryStep k ivsFor db e).entries = keysA db.entries := by
  rw [migrateEntryStep_entries]
  exact keysA_upsertA_of_mem _ hmem

theorem migrateEntryStep_audio_self_none (k : Nat) (ivsFor : String → IvPack)
    (db : DB) (e : EntryMeta) (h : lookupA e.id db.audio = none) :
    lookupA e.id (migrateEntryStep k ivsFor db e).audio = none := by
  rw [migrateEntryStep_audio, getEntryAudio_absent (some k) e.id db h]
  exact h

theorem migrateEntryStep_audio_self_plain (k : Nat) (ivsFor : String → IvPack)
    (db : DB) (e : EntryMeta) (b : Blob) (h : lookupA e.id db.audio = some (.plain b)) :
    lookupA e.id (migrateEntryStep k ivsFor db e).audio
      = some (storeBlob (some k) ((ivsFor e.id).audioIv) b) := by
  rw [migrateEntryStep_audio, getEntryAudio_plain (some k) e.id db b h]
  exact lookupA_upsertA_self _ _ _

theorem snap_key_ne_art_key_self (id : String) :
    id ++ "_snapshot" ≠ id ++ "_art" :=
  snapshot_key_ne_art_key_cross id id

theorem migrateEntryStep_images_snap_self_none (k : Nat) (ivsFor : String → IvPack)
    (db : DB) (e : EntryMeta) (h : lookupA (e.id ++ "_snapshot") db.images = none) :
    lookupA (e.id ++ "_snapshot") (migrateEntryStep k ivsFor db e).images = none := by
  rw [migrateEntryStep_images, getEntryImage_absent (some k) e.id .snapshot db h]
  cases getEntryImage (some k) e.id .art db with
  | none => exact h
  | some bg =>
    rw [lookupA_upsertA_ne (snap_key_ne_art_key_self e.id) _ _]
    exact h

theorem migrateEntryStep_images_snap_self_plain (k : Nat) (ivsFor : String → IvPack)
    (db : DB) (e : EntryMeta) (b : Blob)
    (h : lookupA (e.id ++ "_snapshot") db.images = some (.plain b)) :
    lookupA (e.id ++ "_snapshot") (migrateEntryStep k ivsFor db e).images
      = some (storeBlob (some k) ((ivsFor e.id).snapshotIv) b) := by
  rw [migrateEntryStep_images, getEntryImage_plain (some k) e.id .snapshot db b h]
  cases getEntryImage (some k) e.id .art db with
  | none => exact lookupA_upsertA_self _ _ _
  | some bg =>
    rw [lookupA_upsertA_ne (snap_key_ne_art_key_self e.id) _ _]
    exact lookupA_upsertA_self _ _ _

theorem migrateEntryStep_images_art_self_none (k : Nat) (ivsFor : String → IvPack)
    (db : DB) (e : EntryMeta) (h : lookupA (e.id ++ "_art") db.images = none) :
    lookupA (e.id ++ "_art") (migrateEntryStep k ivsFor db e).images = none := by
  rw [migrateEntryStep_images, getEntryImage_absent (some k) e.id .art db h]
  cases getEntryImage (some k) e.id .snapshot db with
  | none => exact h
  | some bs =>
    rw [lookupA_upsertA_ne (fun hx => snap_key_ne_art_key_self e.id hx.symm) _ _]
    exact h

theorem migrateEntryStep_images_art_self_enc (k : Nat) (ivsFor : String → IvPack)
    (db : DB) (e : EntryMeta) (b : Blob)
    (h : lookupA (e.id ++ "_art") db.images = some (.plain b)) :
    lookupA (e.id ++ "_art") (migrateEntryStep k ivsFor db e).images
      = some (storeBlob (some k) ((ivsFor e.id).artIv) b) := by
  rw [migrateEntryStep_images, getEntryImage_plain (some k) e.id .art db b h]
  exact lookupA_upsertA_self _ _ _

/-- The bulk encryption pass over an iteration list `L` of distinct-id
entries whose rows are still plaintext: entry rows become the encrypted
envelope, each present blob row its encrypted wrapper; rows of other keys
are untouched and the metadata key set is unchanged. -/
theorem foldA (k : Nat) (ivsFor : String → IvPack) :
    ∀ (L : List EntryMeta) (db : DB),
    (L.map (fun e => e.id)).Nodup →
    (∀ e ∈ L, e.id ∈ keysA db.entries) →
    (∀ e ∈ L, lookupA e.id db.audio = none
      ∨ ∃ b : Blob, lookupA e.id db.audio = some (.plain b)) →
    (∀ e ∈ L, lookupA (e.id ++ "_snapshot") db.images = none
      ∨ ∃ b : Blob, lookupA (e.id ++ "_snapshot") db.images = some (.plain b)) →
    (∀ e ∈ L, lookupA (e.id ++ "_art") db.images = none
      ∨ ∃ b : Blob, lookupA (e.id ++ "_art") db.images = some (.plain b)) →
    (keysA (L.foldl (migrateEntryStep k ivsFor) db).entries = keysA db.entries ∧
     (∀ id, id ∉ L.map (fun e => e.id) →
       lookupA id (L.foldl (migrateEntryStep k ivsFor) db).entries
         = lookupA id db.entries) ∧
     (∀ e ∈ L, lookupA e.id (L.foldl (migrateEntryStep k ivsFor) db).entries
         = some (saveRec (some k) ((ivsFor e.id).entryIv) e)) ∧
     (∀ id, id ∉ L.map (fun e => e.id) →
       lookupA id (L.foldl (migrateEntryStep k ivsFor) db).audio
         = lookupA id db.audio) ∧
     (∀ e ∈ L, lookupA e.id (L.foldl (migrateEntryStep k ivsFor) db).audio
         = (lookupA e.id db.audio).map (fun r =>
             match r with
             | .plain b => storeBlob (some k) ((ivsFor e.id).audioIv) b
             | r => r)) ∧
     (∀ key', (∀ e ∈ L, key' ≠ e.id ++ "_snapshot" ∧ key' ≠ e.id ++ "_art") →
       lookupA key' (L.foldl (migrateEntryStep k ivsFor) db).images
         = lookupA key' db.images) ∧
     (∀ e ∈ L, lookupA (e.id ++ "_snapshot")
           (L.foldl (migrateEntryStep k ivsFor) db).images
         = (lookupA (e.id ++ "_snapshot") db.images).map (fun r =>
             match r with
             | .plain b => storeBlob (some k) ((ivsFor e.id).snapshotIv) b
             | r => r)) ∧
     (∀ e ∈ L, lookupA (e.id ++ "_art")
           (L.foldl (migrateEntryStep k ivsFor) db).images
         = (lookupA (e.id ++ "_art") db.images).map (fun r =>
             match r with
             | .plain b => storeBlob (some k) ((ivsFor e.id).artIv) b
             | r => r))) := by
  intro L
  induction L with
  | nil =>
    intro db _ _ _ _ _
    exact ⟨rfl, fun _ _ => rfl, fun e he => absurd he (List.not_mem_nil e),
      fun _ _ => rfl, fun e he => absurd he (List.not_mem_nil e),
      fun _ _ => rfl, fun e he => absurd he (List.not_mem_nil e),
      fun e he => absurd he (List.not_mem_nil e)⟩
  | cons e L' ih =>
    intro db hnd hkeys haud hsnap hart
    have hnd' : (L'.map (fun e => e.id)).Nodup := (List.nodup_cons.mp hnd).2
    have hnotin : e.id ∉ L'.map (fun e => e.id) := (List.nodup_cons.mp hnd).1
    have hidne : ∀ e' ∈ L', e'.id ≠ e.id := by
      intro e' he' hcontra
      exact hnotin (hcontra ▸ List.mem_map_of_mem (fun x => x.id) he')
    have hkeyse : e.id ∈ keysA db.entries := hkeys e (List.mem_cons_self e L')
    -- the step taken for `e`
    have hstep_keys : keysA (migrateEntryStep k ivsFor db e).entries = keysA db.entries :=
      migrateEntryStep_entries_keys k ivsFor db e hkeyse
    -- hypotheses carry over to the state after the step
    have hkeys' : ∀ e' ∈ L', e'.id ∈ keysA (migrateEntryStep k ivsFor db e).entries := by
      intro e' he'
      rw [hstep_keys]
      exact hkeys e' (List.mem_cons_of_mem e he')
    have haud' : ∀ e' ∈ L', lookupA e'.id (migrateEntryStep k ivsFor db e).audio = none
        ∨ ∃ b : Blob, lookupA e'.id (migrateEntryStep k ivsFor db e).audio
          = some (.plain b) := by
      intro e' he'
      rw [migrateEntryStep_audio_lookup_ne k ivsFor db e (hidne e' he')]
      exact haud e' (List.mem_cons_of_mem e he')
    have hsnapne : ∀ e' ∈ L', e'.id ++ "_snapshot" ≠ e.id ++ "_snapshot"
        ∧ e'.id ++ "_snapshot" ≠ e.id ++ "_art" := by
      intro e' he'
      exact ⟨fun h => hidne e' he' (snapshot_key_inj h),
        snapshot_key_ne_art_key_cross e'.id e.id⟩
    have hartne : ∀ e' ∈ L', e'.id ++ "_art" ≠ e.id ++ "_snapshot"
        ∧ e'.id ++ "_art" ≠ e.id ++ "_art" := by
      intro e' he'
      exact ⟨fun h => snapshot_key_ne_art_key_cross e.id e'.id h.symm,
        fun h => hidne e' he' (art_key_inj h)⟩
    have hsnap' : ∀ e' ∈ L',
        lookupA (e'.id ++ "_snapshot") (migrateEntryStep k ivsFor db e).images = none
        ∨ ∃ b : Blob, lookupA (e'.id ++ "_snapshot")
            (migrateEntryStep k ivsFor db e).images = some (.plain b) := by
      intro e' he'
      rw [migrateEntryStep_images_lookup_ne k ivsFor db e (hsnapne e' he').1
        (hsnapne e' he').2]
      exact hsnap e' (List.mem_cons_of_mem e he')
    have hart' : ∀ e' ∈ L',
        lookupA (e'.id ++ "_art") (migrateEntryStep k ivsFor db e).images = none
        ∨ ∃ b : Blob, lookupA (e'.id ++ "_art")
            (migrateEntryStep k ivsFor db e).images = some (.plain b) := by
      intro e' he'
      rw [migrateEntryStep_images_lookup_ne k ivsFor db e (hartne e' he').1
        (hartne e' he').2]
      exact hart e' (List.mem_cons_of_mem e he')
    obtain ⟨ikeys, iframeE, ivalE, iframeA, ivalA, iframeI, ivalS, ivalG⟩ :=
      ih (migrateEntryStep k ivsFor db e) hnd' hkeys' haud' hsnap' hart'
    have hfold : (e :: L').foldl (migrateEntryStep k ivsFor) db
        = L'.foldl (migrateEntryStep k ivsFor) (migrateEntryStep k ivsFor db e) := rfl
    rw [hfold]
    refine ⟨?_, ?_, ?_, ?_, ?_, ?_, ?_, ?_⟩
    · rw [ikeys, hstep_keys]
    · intro id hid
      have hid1 : id ≠ e.id := fun h => hid (h ▸ List.mem_cons_self _ _)
      have hid2 : id ∉ L'.map (fun e => e.id) := fun h => hid (List.mem_cons_of_mem _ h)
      rw [iframeE id hid2]
      exact migrateEntryStep_entries_lookup_ne k ivsFor db e hid1
    · intro e0 he0
      rcases List.mem_cons.mp he0 with rfl | he0'
      · rw [iframeE e0.id hnotin, migrateEntryStep_entries]
        exact lookupA_upsertA_self _ _ _
      · exact ivalE e0 he0'
    · intro id hid
      have hid1 : id ≠ e.id := fun h => hid (h ▸ List.mem_cons_self _ _)
      have hid2 : id ∉ L'.map (fun e => e.id) := fun h => hid (List.mem_cons_of_mem _ h)
      rw [iframeA id hid2]
      exact migrateEntryStep_audio_lookup_ne k ivsFor db e hid1
    · intro e0 he0
      rcases List.mem_cons.mp he0 with rfl | he0'
      · rw [iframeA e0.id hnotin]
        rcases haud e0 (List.mem_cons_self _ _) with hnone | ⟨b, hb⟩
        · rw [migrateEntryStep_audio_self_none k ivsFor db e0 hnone, hnone]
          rfl
        · rw [migrateEntryStep_audio_self_plain k ivsFor db e0 b hb, hb]
          rfl
      · rw [ivalA e0 he0', migrateEntryStep_audio_lookup_ne k ivsFor db e (hidne e0 he0')]
    · intro key' hkey'
      have hk1 := hkey' e (List.mem_cons_self _ _)
      have hk2 : ∀ e' ∈ L', key' ≠ e'.id ++ "_snapshot" ∧ key' ≠ e'.id ++ "_art" :=
        fun e' he' => hkey' e' (List.mem_cons_of_mem _ he')
      rw [iframeI key' hk2]
      exact migrateEntryStep_images_lookup_ne k ivsFor db e hk1.1 hk1.2
    · intro e0 he0
      rcases List.mem_cons.mp he0 with rfl | he0'
      · have hown : ∀ e' ∈ L', e0.id ++ "_snapshot" ≠ e'.id ++ "_snapshot"
            ∧ e0.id ++ "_snapshot" ≠ e'.id ++ "_art" := by
          intro e' he'
          exact ⟨fun h => hidne e' he' (snapshot_key_inj h).symm,
            snapshot_key_ne_art_key_cross e0.id e'.id⟩
        rw [iframeI _ hown]
        rcases hsnap e0 (List.mem_cons_self _ _) with hnone | ⟨b, hb⟩
        · rw [migrateEntryStep_images_snap_self_none k ivsFor db e0 hnone, hnone]
          rfl
        · rw [migrateEntryStep_images_snap_self_plain k ivsFor db e0 b hb, hb]
          rfl
      · rw [ivalS e0 he0',
          migrateEntryStep_images_lookup_ne k ivsFor db e (hsnapne e0 he0').1
            (hsnapne e0 he0').2]
    · intro e0 he0
      rcases List.mem_cons.mp he0 with rfl | he0'
      · have hown : ∀ e' ∈ L', e0.id ++ "_art" ≠ e'.id ++ "_snapshot"
            ∧ e0.id ++ "_art" ≠ e'.id ++ "_art" := by
          intro e' he'
          exact ⟨fun h => snapshot_key_ne_art_key_cross e'.id e0.id h.symm,
            fun h => hidne e' he' (art_key_inj h).symm⟩
        rw [iframeI _ hown]
        rcases hart e0 (List.mem_cons_self _ _) with hnone | ⟨b, hb⟩
        · rw [migrateEntryStep_images_art_self_none k ivsFor db e0 hnone, hnone]
          rfl
        · rw [migrateEntryStep_images_art_self_enc k ivsFor db e0 b hb, hb]
          rfl
      · rw [ivalG e0 he0',
          migrateEntryStep_images_lookup_ne k ivsFor db e (hartne e0 he0').1
            (hartne e0 he0').2]

/-! ### Per-entry step characterization, decryption pass -/

theorem migratePlainStep_entries (k : Nat) (db : DB) (e : EntryMeta) :
    (migratePlainStep k db e).entries = upsertA e.id (.plain e) db.entries := by
  unfold migratePlainStep
  rw [saveEntry_entries]
  rfl

theorem migratePlainStep_audio (k : Nat) (db : DB) (e : EntryMeta) :
    (migratePlainStep k db e).audio
      = (match getEntryAudio (some k) e.id db with
         | some b => upsertA e.id (.plain b) db.audio
         | none => db.audio) := by
  unfold migratePlainStep
  rw [saveEntry_audio]
  cases getEntryAudio (some k) e.id db <;> rfl

theorem migratePlainStep_images (k : Nat) (db : DB) (e : EntryMeta) :
    (migratePlainStep k db e).images
      = (match getEntryImage (some k) e.id .art db with
         | some bg =>
           upsertA (e.id ++ "_art") (.plain bg)
             (match getEntryImage (some k) e.id .snapshot db with
              | some bs => upsertA (e.id ++ "_snapshot") (.plain bs) db.images
              | none => db.images)
         | none =>
           match getEntryImage (some k) e.id .snapshot db with
           | some bs => upsertA (e.id ++ "_snapshot") (.plain bs) db.images
           | none => db.images) := by
  unfold migratePlainStep
  rw [saveEntry_images]
  cases getEntryImage (some k) e.id .art db <;>
    cases getEntryImage (some k) e.id .snapshot db <;> rfl

theorem migratePlainStep_audio_lookup_ne (k : Nat) (db : DB) (e : EntryMeta)
    {id : String} (hne : id ≠ e.id) :
    lookupA id (migratePlainStep k db e).audio = lookupA id db.audio := by
  rw [migratePlainStep_audio]
  cases getEntryAudio (some k) e.id db with
  | none => rfl
  | some b => exact lookupA_upsertA_ne hne _ _

theorem migratePlainStep_images_lookup_ne (k : Nat) (db : DB) (e : EntryMeta)
    {key' : String} (h1 : key' ≠ e.id ++ "_snapshot") (h2 : key' ≠ e.id ++ "_art") :
    lookupA key' (migratePlainStep k db e).images = lookupA key' db.images := by
  rw [migratePlainStep_images]
  cases getEntryImage (some k) e.id .art db <;>
    cases getEntryImage (some k) e.id .snapshot db <;>
      simp [lookupA_upsertA_ne h1, lookupA_upsertA_ne h2]

theorem migratePlainStep_entries_lookup_ne (k : Nat) (db : DB) (e : EntryMeta)
    {id : String} (hne : id ≠ e.id) :
    lookupA id (migratePlainStep k db e).entries = lookupA id db.entries := by
  rw [migratePlainStep_entries]
  exact lookupA_upsertA_ne hne _ _

theorem migratePlainStep_entries_keys (k : Nat) (db : DB) (e : EntryMeta)
    (hmem : e.id ∈ keysA db.entries) :
    keysA (migratePlainStep k db e).entries = keysA db.entries := by
  rw [migratePlainStep_entries]
  exact keysA_upsertA_of_mem _ hmem

theorem migratePlainStep_audio_self_none (k : Nat) (db : DB) (e : EntryMeta)
    (h : lookupA e.id db.audio = none) :
    lookupA e.id (migratePlainStep k db e).audio = none := by
  rw [migratePlainStep_audio, getEntryAudio_absent (some k) e.id db h]
  exact h

theorem migratePlainStep_audio_self_enc (k : Nat) (db : DB) (e : EntryMeta)
    (b : Blob) {iv : List Nat} (hiv : IvOK iv) (hty : b.type ≠ "")
    (h : lookupA e.id db.audio = some (storeBlob (some k) iv b)) :
    lookupA e.id (migratePlainStep k db e).audio = some (.plain b) := by
  rw [migratePlainStep_audio, getEntryAudio_enc k e.id db b hiv hty h]
  exact lookupA_upsertA_self _ _ _

theorem migratePlainStep_images_snap_self_none (k : Nat) (db : DB) (e : EntryMeta)
    (h : lookupA (e.id ++ "_snapshot") db.images = none) :
    lookupA (e.id ++ "_snapshot") (migratePlainStep k db e).images = none := by
  rw [migratePlainStep_images, getEntryImage_absent (some k) e.id .snapshot db h]
  cases getEntryImage (some k) e.id .art db with
  | none => exact h
  | some bg =>
    rw [lookupA_upsertA_ne (snap_key_ne_art_key_self e.id) _ _]
    exact h

theorem migratePlainStep_images_snap_self_enc (k : Nat) (db : DB) (e : EntryMeta)
    (b : Blob) {iv : List Nat} (hiv : IvOK iv) (hty : b.type ≠ "")
    (h : lookupA (e.id ++ "_snapshot") db.images = some (storeBlob (some k) iv b)) :
    lookupA (e.id ++ "_snapshot") (migratePlainStep k db e).images = some (.plain b) := by
  rw [migratePlainStep_images, getEntryImage_enc k e.id .snapshot db b hiv hty h]
  cases getEntryImage (some k) e.id .art db with
  | none => exact lookupA_upsertA_self _ _ _
  | some bg =>
    rw [lookupA_upsertA_ne (snap_key_ne_art_key_self e.id) _ _]
    exact lookupA_upsertA_self _ _ _

theorem migratePlainStep_images_art_self_none (k : Nat) (db : DB) (e : EntryMeta)
    (h : lookupA (e.id ++ "_art") db.images = none) :
    lookupA (e.id ++ "_art") (migratePlainStep k db e).images = none := by
  rw [migratePlainStep_images, getEntryImage_absent (some k) e.id .art db h]
  cases getEntryImage (some k) e.id .snapshot db with
  | none => exact h
  | some bs =>
    rw [lookupA_upsertA_ne (fun hx => snap_key_ne_art_key_self e.id hx.symm) _ _]
    exact h

theorem migratePlainStep_images_art_self_enc (k : Nat) (db : DB) (e : EntryMeta)
    (b : Blob) {iv : List Nat} (hiv : IvOK iv) (hty : b.type ≠ "")
    (h : lookupA (e.id ++ "_art") db.images = some (storeBlob (some k) iv b)) :
    lookupA (e.id ++ "_art") (migratePlainStep k db e).images = some (.plain b) := by
  rw [migratePlainStep_images, getEntryImage_enc k e.id .art db b hiv hty h]
  exact lookupA_upsertA_self _ _ _

/-- A row holding the encrypted wrapper of blob `b` under key `k` with a
well-formed iv and a nonempty type, or no row at all — the shape the
encryption pass leaves behind. -/
def EncShape (k : Nat) (row : Option BlobRec) : Prop :=
  row = none ∨ ∃ (b : Blob) (iv : List Nat),
    IvOK iv ∧ b.type ≠ "" ∧ row = some (storeBlob (some k) iv b)

/-- The bulk decryption pass over an iteration list `L` of distinct-id
entries whose rows hold the encrypted wrappers: entry rows become plain
records of the listed metadata, blob rows their decrypted plaintext; rows
of other keys are untouched and the metadata key set is unchanged. -/
theorem foldB (k : Nat) :
    ∀ (L : List EntryMeta) (db : DB),
    (L.map (fun e => e.id)).Nodup →
    (∀ e ∈ L, e.id ∈ keysA db.entries) →
    (∀ e ∈ L, EncShape k (lookupA e.id db.audio)) →
    (∀ e ∈ L, EncShape k (lookupA (e.id ++ "_snapshot") db.images)) →
    (∀ e ∈ L, EncShape k (lookupA (e.id ++ "_art") db.images)) →
    (keysA (L.foldl (migratePlainStep k) db).entries = keysA db.entries ∧
     (∀ id, id ∉ L.map (fun e => e.id) →
       lookupA id (L.foldl (migratePlainStep k) db).entries = lookupA id db.entries) ∧
     (∀ e ∈ L, lookupA e.id (L.foldl (migratePlainStep k) db).entries
         = some (.plain e)) ∧
     (∀ id, id ∉ L.map (fun e => e.id) →
       lookupA id (L.foldl (migratePlainStep k) db).audio = lookupA id db.audio) ∧
     (∀ e ∈ L, lookupA e.id db.audio = none →
       lookupA e.id (L.foldl (migratePlainStep k) db).audio = none) ∧
     (∀ e ∈ L, ∀ (b : Blob) (iv : List Nat), IvOK iv → b.type ≠ "" →
       lookupA e.id db.audio = some (storeBlob (some k) iv b) →
       lookupA e.id (L.foldl (migratePlainStep k) db).audio = some (.plain b)) ∧
     (∀ key', (∀ e ∈ L, key' ≠ e.id ++ "_snapshot" ∧ key' ≠ e.id ++ "_art") →
       lookupA key' (L.foldl (migratePlainStep k) db).images = lookupA key' db.images) ∧
     (∀ e ∈ L, lookupA (e.id ++ "_snapshot") db.images = none →
       lookupA (e.id ++ "_snapshot") (L.foldl (migratePlainStep k) db).images = none) ∧
     (∀ e ∈ L, ∀ (b : Blob) (iv : List Nat), IvOK iv → b.type ≠ "" →
       lookupA (e.id ++ "_snapshot") db.images = some (storeBlob (some k) iv b) →
       lookupA (e.id ++ "_snapshot") (L.foldl (migratePlainStep k) db).images
         = some (.plain b)) ∧
     (∀ e ∈ L, lookupA (e.id ++ "_art") db.images = none →
       lookupA (e.id ++ "_art") (L.foldl (migratePlainStep k) db).images = none) ∧
     (∀ e ∈ L, ∀ (b : Blob) (iv : List Nat), IvOK iv → b.type ≠ "" →
       lookupA (e.id ++ "_art") db.images = some (storeBlob (some k) iv b) →
       lookupA (e.id ++ "_art") (L.foldl (migratePlainStep k) db).images
         = some (.plain b))) := by
  intro L
  induction L with
  | nil =>
    intro db _ _ _ _ _
    refine ⟨rfl, fun _ _ => rfl, fun e he => absurd he (List.not_mem_nil e),
      fun _ _ => rfl, fun e he => absurd he (List.not_mem_nil e),
      fun e he => absurd he (List.not_mem_nil e),
      fun _ _ => rfl, fun e he => absurd he (List.not_mem_nil e),
      fun e he => absurd he (List.not_mem_nil e),
      fun e he => absurd he (List.not_mem_nil e),
      fun e he => absurd he (List.not_mem_nil e)⟩
  | cons e L' ih =>
    intro db hnd hkeys haud hsnap hart
    have hnd' : (L'.map (fun e => e.id)).Nodup := (List.nodup_cons.mp hnd).2
    have hnotin : e.id ∉ L'.map (fun e => e.id) := (List.nodup_cons.mp hnd).1
    have hidne : ∀ e' ∈ L', e'.id ≠ e.id := by
      intro e' he' hcontra
      exact hnotin (hcontra ▸ List.mem_map_of_mem (fun x => x.id) he')
    have hkeyse : e.id ∈ keysA db.entries := hkeys e (List.mem_cons_self e L')
    have hstep_keys : keysA (migratePlainStep k db e).entries = keysA db.entries :=
      migratePlainStep_entries_keys k db e hkeyse
    have hkeys' : ∀ e' ∈ L', e'.id ∈ keysA (migratePlainStep k db e).entries := by
      intro e' he'
      rw [hstep_keys]
      exact hkeys e' (List.mem_cons_of_mem e he')
    have haud' : ∀ e' ∈ L', EncShape k (lookupA e'.id (migratePlainStep k db e).audio) := by
      intro e' he'
      rw [migratePlainStep_audio_lookup_ne k db e (hidne e' he')]
      exact haud e' (List.mem_cons_of_mem e he')
    have hsnapne : ∀ e' ∈ L', e'.id ++ "_snapshot" ≠ e.id ++ "_snapshot"
        ∧ e'.id ++ "_snapshot" ≠ e.id ++ "_art" := by
      intro e' he'
      exact ⟨fun h => hidne e' he' (snapshot_key_inj h),
        snapshot_key_ne_art_key_cross e'.id e.id⟩
    have hartne : ∀ e' ∈ L', e'.id ++ "_art" ≠ e.id ++ "_snapshot"
        ∧ e'.id ++ "_art" ≠ e.id ++ "_art" := by
      intro e' he'
      exact ⟨fun h => snapshot_key_ne_art_key_cross e.id e'.id h.symm,
        fun h => hidne e' he' (art_key_inj h)⟩
    have hsnap' : ∀ e' ∈ L',
        EncShape k (lookupA (e'.id ++ "_snapshot") (migratePlainStep k db e).images) := by
      intro e' he'
      rw [migratePlainStep_images_lookup_ne k db e (hsnapne e' he').1 (hsnapne e' he').2]
      exact hsnap e' (List.mem_cons_of_mem e he')
    have hart' : ∀ e' ∈ L',
        EncShape k (lookupA (e'.id ++ "_art") (migratePlainStep k db e).images) := by
      intro e' he'
      rw [migratePlainStep_images_lookup_ne k db e (hartne e' he').1 (hartne e' he').2]
      exact hart e' (List.mem_cons_of_mem e he')
    obtain ⟨ikeys, iframeE, ivalE, iframeA, ivalAn, ivalAe, iframeI, ivalSn, ivalSe,
      ivalGn, ivalGe⟩ := ih (migratePlainStep k db e) hnd' hkeys' haud' hsnap' hart'
    have hfold : (e :: L').foldl (migratePlainStep k) db
        = L'.foldl (migratePlainStep k) (migratePlainStep k db e) := rfl
    rw [hfold]
    refine ⟨?_, ?_, ?_, ?_, ?_, ?_, ?_, ?_, ?_, ?_, ?_⟩
    · rw [ikeys, hstep_keys]
    · intro id hid
      have hid1 : id ≠ e.id := fun h => hid (h ▸ List.mem_cons_self _ _)
      have hid2 : id ∉ L'.map (fun e => e.id) := fun h => hid (List.mem_cons_of_mem _ h)
      rw [iframeE id hid2]
      exact migratePlainStep_entries_lookup_ne k db e hid1
    · intro e0 he0
      rcases List.mem_cons.mp he0 with rfl | he0'
      · rw [iframeE e0.id hnotin, migratePlainStep_entries]
        exact lookupA_upsertA_self _ _ _
      · exact ivalE e0 he0'
    · intro id hid
      have hid1 : id ≠ e.id := fun h => hid (h ▸ List.mem_cons_self _ _)
      have hid2 : id ∉ L'.map (fun e => e.id) := fun h => hid (List.mem_cons_of_mem _ h)
      rw [iframeA id hid2]
      exact migratePlainStep_audio_lookup_ne k db e hid1
    · intro e0 he0 hnone
      rcases List.mem_cons.mp he0 with rfl | he0'
      · rw [iframeA e0.id hnotin]
        exact migratePlainStep_audio_self_none k db e0 hnone
      · rw [ivalAn e0 he0' (by
          rw [migratePlainStep_audio_lookup_ne k db e (hidne e0 he0')]
          exact hnone)]
    · intro e0 he0 b iv hiv hty hrow
      rcases List.mem_cons.mp he0 with rfl | he0'
      · rw [iframeA e0.id hnotin]
        exact migratePlainStep_audio_self_enc k db e0 b hiv hty hrow
      · exact ivalAe e0 he0' b iv hiv hty (by
          rw [migratePlainStep_audio_lookup_ne k db e (hidne e0 he0')]
          exact hrow)
    · intro key' hkey'
      have hk1 := hkey' e (List.mem_cons_self _ _)
      have hk2 : ∀ e' ∈ L', key' ≠ e'.id ++ "_snapshot" ∧ key' ≠ e'.id ++ "_art" :=
        fun e' he' => hkey' e' (List.mem_cons_of_mem _ he')
      rw [iframeI key' hk2]
      exact migratePlainStep_images_lookup_ne k db e hk1.1 hk1.2
    · intro e0 he0 hnone
      rcases List.mem_cons.mp he0 with rfl | he0'
      · have hown : ∀ e' ∈ L', e0.id ++ "_snapshot" ≠ e'.id ++ "_snapshot"
            ∧ e0.id ++ "_snapshot" ≠ e'.id ++ "_art" := by
          intro e' he'
          exact ⟨fun h => hidne e' he' (snapshot_key_inj h).symm,
            snapshot_key_ne_art_key_cross e0.id e'.id⟩
        rw [iframeI _ hown]
        exact migratePlainStep_images_snap_self_none k db e0 hnone
      · rw [ivalSn e0 he0' (by
          rw [migratePlainStep_images_lookup_ne k db e (hsnapne e0 he0').1
            (hsnapne e0 he0').2]
          exact hnone)]
    · intro e0 he0 b iv hiv hty hrow
      rcases List.mem_cons.mp he0 with rfl | he0'
      · have hown : ∀ e' ∈ L', e0.id ++ "_snapshot" ≠ e'.id ++ "_snapshot"
            ∧ e0.id ++ "_snapshot" ≠ e'.id ++ "_art" := by
          intro e' he'
          exact ⟨fun h => hidne e' he' (snapshot_key_inj h).symm,
            snapshot_key_ne_art_key_cross e0.id e'.id⟩
        rw [iframeI _ hown]
        exact migratePlainStep_images_snap_self_enc k db e0 b hiv hty hrow
      · exact ivalSe e0 he0' b iv hiv hty (by
          rw [migratePlainStep_images_lookup_ne k db e (hsnapne e0 he0').1
            (hsnapne e0 he0').2]
          exact hrow)
    · intro e0 he0 hnone
      rcases List.mem_cons.mp he0 with rfl | he0'
      · have hown : ∀ e' ∈ L', e0.id ++ "_art" ≠ e'.id ++ "_snapshot"
            ∧ e0.id ++ "_art" ≠ e'.id ++ "_art" := by
          intro e' he'
          exact ⟨fun h => snapshot_key_ne_art_key_cross e'.id e0.id h.symm,
            fun h => hidne e' he' (art_key_inj h).symm⟩
        rw [iframeI _ hown]
        exact migratePlainStep_images_art_self_none k db e0 hnone
      · rw [ivalGn e0 he0' (by
          rw [migratePlainStep_images_lookup_ne k db e (hartne e0 he0').1
            (hartne e0 he0').2]
          exact hnone)]
    · intro e0 he0 b iv hiv hty hrow
      rcases List.mem_cons.mp he0 with rfl | he0'
      · have hown : ∀ e' ∈ L', e0.id ++ "_art" ≠ e'.id ++ "_snapshot"
            ∧ e0.id ++ "_art" ≠ e'.id ++ "_art" := by
          intro e' he'
          exact ⟨fun h => snapshot_key_ne_art_key_cross e'.id e0.id h.symm,
            fun h => hidne e' he' (art_key_inj h).symm⟩
        rw [iframeI _ hown]
        exact migratePlainStep_images_art_self_enc k db e0 b hiv hty hrow
      · exact ivalGe e0 he0' b iv hiv hty (by
          rw [migratePlainStep_images_lookup_ne k db e (hartne e0 he0').1
            (hartne e0 he0').2]
          exact hrow)

/-! ### Assembling the round-trip -/

theorem lookupA_eq_none_of_not_mem {α : Type} {k : String} {l : List (String × α)}
    (h : k ∉ keysA l) : lookupA k l = none := by
  cases hc : lookupA k l with
  | none => rfl
  | some v => exact absurd (mem_of_lookupA_isSome (by simp [hc])) h

theorem corpus_map_keys {α : Type} (f : CorpusEntry → α) (c : List CorpusEntry) :
    keysA (c.map (fun x => (x.meta.id, f x))) = corpusIds c := by
  unfold keysA corpusIds
  rw [List.map_map]
  rfl

theorem corpus_map_lookup {α : Type} (f : CorpusEntry → α) (c : List CorpusEntry)
    (hnd : (corpusIds c).Nodup) :
    ∀ ce ∈ c, lookupA ce.meta.id (c.map (fun x => (x.meta.id, f x))) = some (f ce) := by
  induction c with
  | nil => intro ce hce; cases hce
  | cons hd t ih =>
    intro ce hce
    have hnd2 : (corpusIds t).Nodup := (List.nodup_cons.mp hnd).2
    have hhd : hd.meta.id ∉ corpusIds t := (List.nodup_cons.mp hnd).1
    rcases List.mem_cons.mp hce with rfl | hce2
    · simp [lookupA]
    · by_cases heq : hd.meta.id = ce.meta.id
      · exact absurd (heq ▸ List.mem_map_of_mem (fun x => x.meta.id) hce2) hhd
      · show lookupA ce.meta.id ((hd.meta.id, f hd) :: t.map (fun x => (x.meta.id, f x)))
          = some (f ce)
        rw [show lookupA ce.meta.id ((hd.meta.id, f hd) :: t.map (fun x => (x.meta.id, f x)))
            = lookupA ce.meta.id (t.map (fun x => (x.meta.id, f x)))
          from by simp [lookupA, heq]]
        exact ih hnd2 ce hce2

theorem corpus_map_lookup_not_mem {α : Type} (f : CorpusEntry → α) (c : List CorpusEntry)
    {id : String} (h : id ∉ corpusIds c) :
    lookupA id (c.map (fun x => (x.meta.id, f x))) = none := by
  apply lookupA_eq_none_of_not_mem
  rw [corpus_map_keys]
  exact h

theorem stripDur_id (m : EntryMeta) : (stripDur m).id = m.id := rfl

/-- Reading the plaintext corpus store lists exactly the corpus metas,
sorted. -/
theorem getAll_plain_corpus (c : List CorpusEntry) :
    getAllEntries none (dbOfCorpus c) = sortEntries (c.map (fun ce => ce.meta)) := by
  unfold getAllEntries
  rw [corpus_entries_eq, List.map_map]
  rfl

/-- C1 (amended): running `migrateToEncrypted` with a key and then
`migrateToPlain` with the same key over any plaintext corpus with distinct
ids whose attachments carry nonempty MIME types, and reading back, yields
the original corpus *except that every entry's optional `duration` field is
dropped* (it is in neither the clear envelope nor the encrypted sensitive
payload); the attachments are preserved field-for-field. -/
theorem C1_migration_roundtrip_amended (k : Nat) (ivsFor : String → IvPack)
    (identityIv : List Nat) (c : List CorpusEntry)
    (hok : CorpusOK c) (hiv : ∀ id, IvPackOK (ivsFor id)) :
    getAllEntries none
        (migrateToPlain k (migrateToEncrypted k ivsFor identityIv (dbOfCorpus c)))
      = (getAllEntries none (dbOfCorpus c)).map stripDur ∧
    getAllEntries none (dbOfCorpus c) = sortEntries (c.map (fun ce => ce.meta)) ∧
    (∀ ce ∈ c, getEntryAudio none ce.meta.id
        (migrateToPlain k (migrateToEncrypted k ivsFor identityIv (dbOfCorpus c)))
      = ce.audio) ∧
    (∀ ce ∈ c, getEntryImage none ce.meta.id .snapshot
        (migrateToPlain k (migrateToEncrypted k ivsFor identityIv (dbOfCorpus c)))
      = ce.snapshot) ∧
    (∀ ce ∈ c, getEntryImage none ce.meta.id .art
        (migrateToPlain k (migrateToEncrypted k ivsFor identityIv (dbOfCorpus c)))
      = ce.art) := by
  obtain ⟨hnd, htyA, htyS, htyG⟩ := hok
  have hL1perm : List.Perm (sortEntries (c.map (fun ce => ce.meta)))
      (c.map (fun ce => ce.meta)) := sortEntries_perm _
  have hL1mem : ∀ e ∈ sortEntries (c.map (fun ce => ce.meta)), ∃ ce ∈ c, ce.meta = e := by
    intro e he
    rcases List.mem_map.mp (hL1perm.mem_iff.mp he) with ⟨ce, hce, hmeta⟩
    exact ⟨ce, hce, hmeta⟩
  have hL1ids_perm : List.Perm
      ((sortEntries (c.map (fun ce => ce.meta))).map (fun e => e.id)) (corpusIds c) := by
    have h := hL1perm.map (fun e => e.id)
    rw [List.map_map] at h
    exact h
  have hL1nd : ((sortEntries (c.map (fun ce => ce.meta))).map (fun e => e.id)).Nodup :=
    hL1ids_perm.nodup_iff.mpr hnd
  have hmemL1 : ∀ ce ∈ c, ce.meta ∈ sortEntries (c.map (fun ce => ce.meta)) := by
    intro ce hce
    exact hL1perm.mem_iff.mpr (List.mem_map_of_mem _ hce)
  -- phase A
  have hkeysA : ∀ e ∈ sortEntries (c.map (fun ce => ce.meta)),
      e.id ∈ keysA (dbOfCorpus c).entries := by
    intro e he
    rw [corpus_entries_keys]
    rcases hL1mem e he with ⟨ce, hce, rfl⟩
    exact List.mem_map_of_mem (fun x => x.meta.id) hce
  have haudA : ∀ e ∈ sortEntries (c.map (fun ce => ce.meta)),
      lookupA e.id (dbOfCorpus c).audio = none
        ∨ ∃ b : Blob, lookupA e.id (dbOfCorpus c).audio = some (.plain b) := by
    intro e he
    rcases hL1mem e he with ⟨ce, hce, rfl⟩
    rw [corpus_audio_lookup c hnd ce hce]
    cases ce.audio with
    | none => exact Or.inl rfl
    | some b => exact Or.inr ⟨b, rfl⟩
  have hsnapA : ∀ e ∈ sortEntries (c.map (fun ce => ce.meta)),
      lookupA (e.id ++ "_snapshot") (dbOfCorpus c).images = none
        ∨ ∃ b : Blob, lookupA (e.id ++ "_snapshot") (dbOfCorpus c).images
          = some (.plain b) := by
    intro e he
    rcases hL1mem e he with ⟨ce, hce, rfl⟩
    rw [corpus_images_snap_lookup c hnd ce hce]
    cases ce.snapshot with
    | none => exact Or.inl rfl
    | some b => exact Or.inr ⟨b, rfl⟩
  have hartA : ∀ e ∈ sortEntries (c.map (fun ce => ce.meta)),
      lookupA (e.id ++ "_art") (dbOfCorpus c).images = none
        ∨ ∃ b : Blob, lookupA (e.id ++ "_art") (dbOfCorpus c).images = some (.plain b) := by
    intro e he
    rcases hL1mem e he with ⟨ce, hce, rfl⟩
    rw [corpus_images_art_lookup c hnd ce hce]
    cases ce.art with
    | none => exact Or.inl rfl
    | some b => exact Or.inr ⟨b, rfl⟩
  obtain ⟨akeys, aframeE, avalE, aframeA, avalA, aframeI, avalS, avalG⟩ :=
    foldA k ivsFor (sortEntries (c.map (fun ce => ce.meta))) (dbOfCorpus c)
      hL1nd hkeysA haudA hsnapA hartA
  have hidnoneA : lookupA IDENTITY_KEY
      ((sortEntries (c.map (fun ce => ce.meta))).foldl
        (migrateEntryStep k ivsFor) (dbOfCorpus c)).images = none := by
    rw [aframeI IDENTITY_KEY
      (fun e _ => ⟨identity_ne_snapshot_key e.id, identity_ne_art_key e.id⟩)]
    exact corpus_images_identity_none c
  have hA_eq : migrateToEncrypted k ivsFor identityIv (dbOfCorpus c)
      = (sortEntries (c.map (fun ce => ce.meta))).foldl
          (migrateEntryStep k ivsFor) (dbOfCorpus c) := by
    simp only [migrateToEncrypted]
    rw [getAll_plain_corpus]
    rw [getUserIdentityImage_absent none _ hidnoneA]
  rw [hA_eq]
  have hdbA_entries : ((sortEntries (c.map (fun ce => ce.meta))).foldl
      (migrateEntryStep k ivsFor) (dbOfCorpus c)).entries
      = c.map (fun x => (x.meta.id, saveRec (some k) ((ivsFor x.meta.id).entryIv) x.meta)) := by
    apply assoc_ext
    · rw [akeys, corpus_entries_keys, corpus_map_keys]
    · rw [akeys, corpus_entries_keys]
      exact hnd
    · intro key
      by_cases hmem : key ∈ corpusIds c
      · rcases List.mem_map.mp hmem with ⟨ce, hce, rfl⟩
        rw [avalE ce.meta (hmemL1 ce hce), corpus_map_lookup _ c hnd ce hce]
      · have hnotL1 : key ∉ (sortEntries (c.map (fun ce => ce.meta))).map (fun e => e.id) :=
          fun hm => hmem (hL1ids_perm.mem_iff.mp hm)
        rw [aframeE key hnotL1, corpus_map_lookup_not_mem _ c hmem,
          lookupA_eq_none_of_not_mem (by rw [corpus_entries_keys]; exact hmem)]
  have hgetA : getAllEntries (some k) ((sortEntries (c.map (fun ce => ce.meta))).foldl
      (migrateEntryStep k ivsFor) (dbOfCorpus c))
      = (sortEntries (c.map (fun ce => ce.meta))).map stripDur := by
    unfold getAllEntries
    rw [hdbA_entries, List.map_map]
    rw [show c.map ((fun p => decodeEntryRec (some k) p.2)
          ∘ (fun x => (x.meta.id, saveRec (some k) ((ivsFor x.meta.id).entryIv) x.meta)))
        = c.map (fun x => stripDur x.meta) from
      List.map_congr_left fun ce _ => decode_saveRec_enc k (hiv ce.meta.id).1 ce.meta]
    rw [show c.map (fun x => stripDur x.meta)
        = (c.map (fun ce => ce.meta)).map stripDur from by rw [List.map_map]; rfl]
    exact sortEntries_map stripDur stripDur_createdAt _
  -- phase B
  have hL2idseq : (((sortEntries (c.map (fun ce => ce.meta))).map stripDur).map
        (fun e => e.id))
      = (sortEntries (c.map (fun ce => ce.meta))).map (fun e => e.id) := by
    rw [List.map_map]
    rfl
  have hL2nd : ((((sortEntries (c.map (fun ce => ce.meta))).map stripDur).map
      (fun e => e.id))).Nodup := by
    rw [hL2idseq]
    exact hL1nd
  have hmemL2 : ∀ ce ∈ c,
      stripDur ce.meta ∈ (sortEntries (c.map (fun ce => ce.meta))).map stripDur :=
    fun ce hce => List.mem_map_of_mem stripDur (hmemL1 ce hce)
  have hL2mem : ∀ e ∈ (sortEntries (c.map (fun ce => ce.meta))).map stripDur,
      ∃ ce ∈ c, stripDur ce.meta = e := by
    intro e he
    rcases List.mem_map.mp he with ⟨e1, he1, hstrip⟩
    rcases hL1mem e1 he1 with ⟨ce, hce, rfl⟩
    exact ⟨ce, hce, hstrip⟩
  have hkeysB : ∀ e ∈ (sortEntries (c.map (fun ce => ce.meta))).map stripDur,
      e.id ∈ keysA ((sortEntries (c.map (fun ce => ce.meta))).foldl
        (migrateEntryStep k ivsFor) (dbOfCorpus c)).entries := by
    intro e he
    rcases hL2mem e he with ⟨ce, hce, rfl⟩
    rw [akeys, corpus_entries_keys]
    exact List.mem_map_of_mem (fun x => x.meta.id) hce
  have haudB : ∀ e ∈ (sortEntries (c.map (fun ce => ce.meta))).map stripDur,
      EncShape k (lookupA e.id ((sortEntries (c.map (fun ce => ce.meta))).foldl
        (migrateEntryStep k ivsFor) (dbOfCorpus c)).audio) := by
    intro e he
    rcases hL2mem e he with ⟨ce, hce, rfl⟩
    show EncShape k (lookupA ce.meta.id _)
    rw [avalA ce.meta (hmemL1 ce hce), corpus_audio_lookup c hnd ce hce]
    cases hau : ce.audio with
    | none => exact Or.inl rfl
    | some b =>
      exact Or.inr ⟨b, (ivsFor ce.meta.id).audioIv, (hiv ce.meta.id).2.1,
        htyA ce hce b hau, rfl⟩
  have hsnapB : ∀ e ∈ (sortEntries (c.map (fun ce => ce.meta))).map stripDur,
      EncShape k (lookupA (e.id ++ "_snapshot")
        ((sortEntries (c.map (fun ce => ce.meta))).foldl
          (migrateEntryStep k ivsFor) (dbOfCorpus c)).images) := by
    intro e he
    rcases hL2mem e he with ⟨ce, hce, rfl⟩
    show EncShape k (lookupA (ce.meta.id ++ "_snapshot") _)
    rw [avalS ce.meta (hmemL1 ce hce), corpus_images_snap_lookup c hnd ce hce]
    cases hau : ce.snapshot with
    | none => exact Or.inl rfl
    | some b =>
      exact Or.inr ⟨b, (ivsFor ce.meta.id).snapshotIv, (hiv ce.meta.id).2.2.1,
        htyS ce hce b hau, rfl⟩
  have hartB : ∀ e ∈ (sortEntries (c.map (fun ce => ce.meta))).map stripDur,
      EncShape k (lookupA (e.id ++ "_art")
        ((sortEntries (c.map (fun ce => ce.meta))).foldl
          (migrateEntryStep k ivsFor) (dbOfCorpus c)).images) := by
    intro e he
    rcases hL2mem e he with ⟨ce, hce, rfl⟩
    show EncShape k (lookupA (ce.meta.id ++ "_art") _)
    rw [avalG ce.meta (hmemL1 ce hce), corpus_images_art_lookup c hnd ce hce]
    cases hau : ce.art with
    | none => exact Or.inl rfl
    | some b =>
      exact Or.inr ⟨b, (ivsFor ce.meta.id).artIv, (hiv ce.meta.id).2.2.2,
        htyG ce hce b hau, rfl⟩
  obtain ⟨bkeys, bframeE, bvalE, bframeA, bvalAn, bvalAe, bframeI, bvalSn, bvalSe,
    bvalGn, bvalGe⟩ :=
    foldB k ((sortEntries (c.map (fun ce => ce.meta))).map stripDur)
      ((sortEntries (c.map (fun ce => ce.meta))).foldl
        (migrateEntryStep k ivsFor) (dbOfCorpus c))
      hL2nd hkeysB haudB hsnapB hartB
  have hidnoneB : lookupA IDENTITY_KEY
      ((((sortEntries (c.map (fun ce => ce.meta))).map stripDur).foldl
        (migratePlainStep k)
        ((sortEntries (c.map (fun ce => ce.meta))).foldl
          (migrateEntryStep k ivsFor) (dbOfCorpus c))).images) = none := by
    rw [bframeI IDENTITY_KEY
      (fun e _ => ⟨identity_ne_snapshot_key e.id, identity_ne_art_key e.id⟩)]
    exact hidnoneA
  have hB_eq : migrateToPlain k ((sortEntries (c.map (fun ce => ce.meta))).foldl
      (migrateEntryStep k ivsFor) (dbOfCorpus c))
      = ((sortEntries (c.map (fun ce => ce.meta))).map stripDur).foldl
          (migratePlainStep k)
          ((sortEntries (c.map (fun ce => ce.meta))).foldl
            (migrateEntryStep k ivsFor) (dbOfCorpus c)) := by
    simp only [migrateToPlain]
    rw [hgetA]
    rw [getUserIdentityImage_absent (some k) _ hidnoneB]
  rw [hB_eq]
  have hdbB_entries : (((sortEntries (c.map (fun ce => ce.meta))).map stripDur).foldl
      (migratePlainStep k)
      ((sortEntries (c.map (fun ce => ce.meta))).foldl
        (migrateEntryStep k ivsFor) (dbOfCorpus c))).entries
      = c.map (fun x => (x.meta.id, EntryRec.plain (stripDur x.meta))) := by
    apply assoc_ext
    · rw [bkeys, akeys, corpus_entries_keys, corpus_map_keys]
    · rw [bkeys, akeys, corpus_entries_keys]
      exact hnd
    · intro key
      by_cases hmem : key ∈ corpusIds c
      · rcases List.mem_map.mp hmem with ⟨ce, hce, rfl⟩
        rw [corpus_map_lookup _ c hnd ce hce]
        exact bvalE (stripDur ce.meta) (hmemL2 ce hce)
      · have hnotL1 : key ∉ (sortEntries (c.map (fun ce => ce.meta))).map (fun e => e.id) :=
          fun hm => hmem (hL1ids_perm.mem_iff.mp hm)
        have hnotL2 : key ∉ ((sortEntries (c.map (fun ce => ce.meta))).map stripDur).map
            (fun e => e.id) := by
          rw [hL2idseq]
          exact hnotL1
        rw [bframeE key hnotL2, aframeE key hnotL1, corpus_map_lookup_not_mem _ c hmem,
          lookupA_eq_none_of_not_mem (by rw [corpus_entries_keys]; exact hmem)]
  refine ⟨?_, getAll_plain_corpus c, ?_, ?_, ?_⟩
  · rw [getAll_plain_corpus c]
    unfold getAllEntries
    rw [hdbB_entries, List.map_map]
    rw [show c.map ((fun p => decodeEntryRec none p.2)
          ∘ (fun x => (x.meta.id, EntryRec.plain (stripDur x.meta))))
        = (c.map (fun ce => ce.meta)).map stripDur from by rw [List.map_map]; rfl]
    exact sortEntries_map stripDur stripDur_createdAt _
  · intro ce hce
    cases hau : ce.audio with
    | none =>
      have hA0 : lookupA ce.meta.id ((sortEntries (c.map (fun ce => ce.meta))).foldl
          (migrateEntryStep k ivsFor) (dbOfCorpus c)).audio = none := by
        rw [avalA ce.meta (hmemL1 ce hce), corpus_audio_lookup c hnd ce hce, hau]
        rfl
      have hB0 := bvalAn (stripDur ce.meta) (hmemL2 ce hce) hA0
      rw [getEntryAudio_absent none ce.meta.id _ hB0]
    | some b =>
      have hA1 : lookupA ce.meta.id ((sortEntries (c.map (fun ce => ce.meta))).foldl
            (migrateEntryStep k ivsFor) (dbOfCorpus c)).audio
          = some (storeBlob (some k) ((ivsFor ce.meta.id).audioIv) b) := by
        rw [avalA ce.meta (hmemL1 ce hce), corpus_audio_lookup c hnd ce hce, hau]
        rfl
      have hB1 := bvalAe (stripDur ce.meta) (hmemL2 ce hce) b ((ivsFor ce.meta.id).audioIv)
        (hiv ce.meta.id).2.1 (htyA ce hce b hau) hA1
      rw [getEntryAudio_plain none ce.meta.id _ b hB1]
  · intro ce hce
    cases hau : ce.snapshot with
    | none =>
      have hA0 : lookupA (ce.meta.id ++ "_snapshot")
          ((sortEntries (c.map (fun ce => ce.meta))).foldl
            (migrateEntryStep k ivsFor) (dbOfCorpus c)).images = none := by
        rw [avalS ce.meta (hmemL1 ce hce), corpus_images_snap_lookup c hnd ce hce, hau]
        rfl
      have hB0 := bvalSn (stripDur ce.meta) (hmemL2 ce hce) hA0
      rw [getEntryImage_absent none ce.meta.id .snapshot _ hB0]
    | some b =>
      have hA1 : lookupA (ce.meta.id ++ "_snapshot")
            ((sortEntries (c.map (fun ce => ce.meta))).foldl
              (migrateEntryStep k ivsFor) (dbOfCorpus c)).images
          = some (storeBlob (some k) ((ivsFor ce.meta.id).snapshotIv) b) := by
        rw [avalS ce.meta (hmemL1 ce hce), corpus_images_snap_lookup c hnd ce hce, hau]
        rfl
      have hB1 := bvalSe (stripDur ce.meta) (hmemL2 ce hce) b
        ((ivsFor ce.meta.id).snapshotIv) (hiv ce.meta.id).2.2.1 (htyS ce hce b hau) hA1
      rw [getEntryImage_plain none ce.meta.id .snapshot _ b hB1]
  · intro ce hce
    cases hau : ce.art with
    | none =>
      have hA0 : lookupA (ce.meta.id ++ "_art")
          ((sortEntries (c.map (fun ce => ce.meta))).foldl
            (migrateEntryStep k ivsFor) (dbOfCorpus c)).images = none := by
        rw [avalG ce.meta (hmemL1 ce hce), corpus_images_art_lookup c hnd ce hce, hau]
        rfl
      have hB0 := bvalGn (stripDur ce.meta) (hmemL2 ce hce) hA0
      rw [getEntryImage_absent none ce.meta.id .art _ hB0]
    | some b =>
      have hA1 : lookupA (ce.meta.id ++ "_art")
            ((sortEntries (c.map (fun ce => ce.meta))).foldl
              (migrateEntryStep k ivsFor) (dbOfCorpus c)).images
          = some (storeBlob (some k) ((ivsFor ce.meta.id).artIv) b) := by
        rw [avalG ce.meta (hmemL1 ce hce), corpus_images_art_lookup c hnd ce hce, hau]
        rfl
      have hB1 := bvalGe (stripDur ce.meta) (hmemL2 ce hce) b
        ((ivsFor ce.meta.id).artIv) (hiv ce.meta.id).2.2.2 (htyG ce hce b hau) hA1
      rw [getEntryImage_plain none ce.meta.id .art _ b hB1]

/-- A one-entry corpus carrying an optional `duration` and an audio blob
with an empty MIME type. -/
def metaX : EntryMeta :=
  { id := "a", createdAt := 1, duration := some 5, transcription := "",
    summary := none, title := "", mood := "", tags := [], insights := [],
    location := none, isProcessing := false, prompt := none, inputType := none }

def ceX : CorpusEntry :=
  { meta := metaX, audio := some ⟨[7], ""⟩, snapshot := none, art := none }

/-- C1 counterexample: after `migrateToEncrypted` then `migrateToPlain`
with the same key, the read-back corpus is NOT field-for-field equal to the
original: the entry comes back without its `duration`, and the empty-typed
audio blob comes back with the default type `audio/webm`. -/
theorem C1_counterexample :
    getAllEntries none
        (migrateToPlain 0 (migrateToEncrypted 0 (fun _ => ivPackW)
          (List.replicate 12 0) (dbOfCorpus [ceX])))
      ≠ getAllEntries none (dbOfCorpus [ceX]) ∧
    getEntryAudio none "a"
        (migrateToPlain 0 (migrateToEncrypted 0 (fun _ => ivPackW)
          (List.replicate 12 0) (dbOfCorpus [ceX])))
      ≠ getEntryAudio none "a" (dbOfCorpus [ceX]) := by
  constructor <;> decide

def ceW : CorpusEntry :=
  { meta := metaW, audio := some ⟨[7], "audio/webm"⟩, snapshot := none, art := none }

theorem ivPackWOK : IvPackOK ivPackW := ⟨by decide, by decide, by decide, by decide⟩

theorem C1_migration_roundtrip_amended_witness :
    getAllEntries none
        (migrateToPlain 0 (migrateToEncrypted 0 (fun _ => ivPackW)
          (List.replicate 12 0) (dbOfCorpus [ceW])))
      = (getAllEntries none (dbOfCorpus [ceW])).map stripDur ∧
    getAllEntries none (dbOfCorpus [ceW]) = sortEntries ([ceW].map (fun ce => ce.meta)) ∧
    (∀ ce ∈ [ceW], getEntryAudio none ce.meta.id
        (migrateToPlain 0 (migrateToEncrypted 0 (fun _ => ivPackW)
          (List.replicate 12 0) (dbOfCorpus [ceW])))
      = ce.audio) ∧
    (∀ ce ∈ [ceW], getEntryImage none ce.meta.id .snapshot
        (migrateToPlain 0 (migrateToEncrypted 0 (fun _ => ivPackW)
          (List.replicate 12 0) (dbOfCorpus [ceW])))
      = ce.snapshot) ∧
    (∀ ce ∈ [ceW], getEntryImage none ce.meta.id .art
        (migrateToPlain 0 (migrateToEncrypted 0 (fun _ => ivPackW)
          (List.replicate 12 0) (dbOfCorpus [ceW])))
      = ce.art) :=
  C1_migration_roundtrip_amended 0 (fun _ => ivPackW) (List.replicate 12 0) [ceW]
    (by
      refine ⟨by decide, ?_, ?_, ?_⟩
      · intro ce hce b hb
        rw [List.mem_singleton] at hce
        subst hce
        simp [ceW] at hb
        rw [← hb]
        decide
      · intro ce hce b hb
        rw [List.mem_singleton] at hce
        subst hce
        simp [ceW] at hb
      · intro ce hce b hb
        rw [List.mem_singleton] at hce
        subst hce
        simp [ceW] at hb)
    (fun _ => ivPackWOK)
